/-
Verification of the response-normalization and pagination pipeline of the
EPO patent proxy service (src/main.py), as a shallow embedding in Lean 4.

Conventions of the embedding:
  * Python strings are modelled as Lean String / List Char; machine ints as
    Lean Int / Nat (Python ints are unbounded, so no wrap-around modelling is
    needed).
  * Library calls with external effects (requests, GoogleTranslator,
    xml.etree.ElementTree.fromstring) are modelled as explicit parameters of
    an Env record: the token outcome, the HTTP search outcome, the XML parse
    of a body, and the translator are inputs to the pure pipeline.
  * Fallible Python code (int(...) on a payload value, a handler that can
    raise) returns Option; a None result models an uncaught exception.
  * datetime.strptime is embedded faithfully for the four format strings the
    code uses, including CPython _strptime regex semantics: %Y is exactly
    four digits, %m matches 1[0-2]|0[1-9]|[1-9], %d matches
    3[01]|[12]\d|0[1-9]|[1-9]|<space>[1-9], alternatives are tried in order
    with backtracking, the match need not reach the end of the string but
    strptime then rejects it (unconverted data remains), and the resulting
    numbers are validated against the real calendar (leap years included).
-/
import Mathlib

set_option maxRecDepth 10000

namespace EpoApi

/-! ## Characters and small Python string utilities -/

/-- The characters Python str.split() / str.strip() treat as whitespace
(the ASCII ones; exotic unicode whitespace is out of scope). -/
def isSpB (c : Char) : Bool :=
  c = ' ' || c = '\t' || c = '\n' || c = '\r' || c = '\x0b' || c = '\x0c'

/-- ASCII digit test, as used for the regex class \d and str.isdigit(). -/
def isDigC (c : Char) : Bool := '0' ≤ c && c ≤ '9'

/-- Numeric value of a digit character. -/
def dv (c : Char) : Nat := c.toNat - 48

/-- Digit character of a value < 10. -/
def dCh (n : Nat) : Char := Char.ofNat (48 + n)

/-- Python str.strip(): drop whitespace from both ends. -/
def pyStrip (cs : List Char) : List Char :=
  ((cs.dropWhile isSpB).reverse.dropWhile isSpB).reverse

/-- Python str.isdigit() restricted to ASCII: nonempty and all digits. -/
def pyIsDigit (cs : List Char) : Bool := !cs.isEmpty && cs.all isDigC

/-- Value of a digit string, as computed by Python int() on it. -/
def digitsVal (cs : List Char) : Nat := cs.foldl (fun a c => a * 10 + dv c) 0

/-- Python str.lower() (ASCII). -/
def pyLower (s : String) : String := String.mk (s.data.map Char.toLower)

/-! ## datetime model -/

/-- A Python datetime at midnight: year, month, day.  datetime values
compare lexicographically by (y, m, d); since strptime only produces
1 ≤ m ≤ 12 and 1 ≤ d ≤ 31, the Nat key below is order-faithful. -/
structure PyDate where
  y : Nat
  m : Nat
  d : Nat
deriving DecidableEq, Repr

/-- Order-faithful numeric key of a date (lexicographic on y, m, d
for the in-range months and days strptime can produce). -/
def PyDate.key (dt : PyDate) : Nat := dt.y * 10000 + dt.m * 100 + dt.d

def isLeap (y : Nat) : Bool := (y % 4 = 0 && y % 100 != 0) || y % 400 = 0

def daysInMonth (y m : Nat) : Nat :=
  if m = 2 then (if isLeap y then 29 else 28)
  else if m = 4 || m = 6 || m = 9 || m = 11 then 30
  else 31

/-- The validation the datetime constructor performs on strptime output
(MINYEAR = 1, MAXYEAR = 9999, real calendar days).  The month range is
already guaranteed by the %m regex. -/
def dateOK (y m d : Nat) : Bool :=
  1 ≤ y && y ≤ 9999 && 1 ≤ m && m ≤ 12 && 1 ≤ d && d ≤ daysInMonth y m

/-! ## strptime embedding

CPython compiles each format to a regex and takes the backtracking-first
match; a match that does not consume the whole string then makes strptime
fail with "unconverted data remains".  The candidate lists below enumerate
each component's alternatives in regex order together with the unconsumed
rest of the input. -/

/-- Matches of (?P<m>1[0-2]|0[1-9]|[1-9]) at the head, in regex order. -/
def mCands (cs : List Char) : List (Nat × List Char) :=
  (match cs with
   | '1' :: c :: rest =>
     if c = '0' || c = '1' || c = '2' then [(10 + dv c, rest)] else []
   | _ => []) ++
  (match cs with
   | '0' :: c :: rest =>
     if '1' ≤ c && c ≤ '9' then [(dv c, rest)] else []
   | _ => []) ++
  (match cs with
   | c :: rest => if '1' ≤ c && c ≤ '9' then [(dv c, rest)] else []
   | _ => [])

/-- Matches of (?P<d>3[01]|[12]\d|0[1-9]|[1-9]| [1-9]) at the head,
in regex order. -/
def dCands (cs : List Char) : List (Nat × List Char) :=
  (match cs with
   | '3' :: c :: rest =>
     if c = '0' || c = '1' then [(30 + dv c, rest)] else []
   | _ => []) ++
  (match cs with
   | c1 :: c2 :: rest =>
     if (c1 = '1' || c1 = '2') && isDigC c2 then [(10 * dv c1 + dv c2, rest)]
     else []
   | _ => []) ++
  (match cs with
   | '0' :: c :: rest =>
     if '1' ≤ c && c ≤ '9' then [(dv c, rest)] else []
   | _ => []) ++
  (match cs with
   | c :: rest => if '1' ≤ c && c ≤ '9' then [(dv c, rest)] else []
   | _ => []) ++
  (match cs with
   | ' ' :: c :: rest =>
     if '1' ≤ c && c ≤ '9' then [(dv c, rest)] else []
   | _ => [])

/-- (?P<Y>\d\d\d\d): exactly four digits. -/
def read4 (cs : List Char) : Option (Nat × List Char) :=
  match cs with
  | a :: b :: c :: d :: rest =>
    if isDigC a && isDigC b && isDigC c && isDigC d then
      some (((dv a * 10 + dv b) * 10 + dv c) * 10 + dv d, rest)
    else none
  | _ => none

/-- Backtracking-first match of %m%d (the tail of "%Y%m%d").  %d is the
last component, so its first successful alternative completes the match. -/
def matchMDlast (cs : List Char) : Option (Nat × Nat × List Char) :=
  (mCands cs).findSome? fun mc =>
    ((dCands mc.2).head?).map fun dc => (mc.1, dc.1, dc.2)

/-- Backtracking-first match of %m-%d (the tail of "%Y-%m-%d"). -/
def matchMDdash (cs : List Char) : Option (Nat × Nat × List Char) :=
  (mCands cs).findSome? fun mc =>
    match mc.2 with
    | '-' :: r2 => ((dCands r2).head?).map fun dc => (mc.1, dc.1, dc.2)
    | _ => none

/-- datetime.strptime(s, "%Y%m%d"): regex match, full-consumption check,
calendar validation. -/
def tryYmd (cs : List Char) : Option PyDate :=
  (read4 cs).bind fun p =>
    (matchMDlast p.2).bind fun q =>
      if q.2.2 = [] && dateOK p.1 q.1 q.2.1 then some ⟨p.1, q.1, q.2.1⟩
      else none

/-- datetime.strptime(s, "%Y-%m-%d"). -/
def tryYmdDash (cs : List Char) : Option PyDate :=
  (read4 cs).bind fun p =>
    match p.2 with
    | c :: rest2 =>
      if c = '-' then
        (matchMDdash rest2).bind fun q =>
          if q.2.2 = [] && dateOK p.1 q.1 q.2.1 then some ⟨p.1, q.1, q.2.1⟩
          else none
      else none
    | [] => none

/-- datetime.strptime(s, "%Y%m"): %m is the last component, so its first
alternative is taken; missing fields default to month 1, day 1. -/
def tryYm (cs : List Char) : Option PyDate :=
  (read4 cs).bind fun p =>
    ((mCands p.2).head?).bind fun q =>
      if q.2 = [] && dateOK p.1 q.1 1 then some ⟨p.1, q.1, 1⟩ else none

/-- datetime.strptime(s, "%Y"). -/
def tryY (cs : List Char) : Option PyDate :=
  (read4 cs).bind fun p =>
    if p.2 = [] && dateOK p.1 1 1 then some ⟨p.1, 1, 1⟩ else none

/-- The four formats tried in the order of src/main.py _parse_date_safe. -/
def strptimeChain (cs : List Char) : Option PyDate :=
  match tryYmd cs with
  | some dt => some dt
  | none =>
    match tryYmdDash cs with
    | some dt => some dt
    | none =>
      match tryYm cs with
      | some dt => some dt
      | none => tryY cs

/-- src/main.py _parse_date_safe: try the four formats in order on the
stripped input; on total failure return the 1900-01-01 sentinel.  A None
or empty input short-circuits to the sentinel. -/
def parse_date_safe (raw : Option String) : PyDate :=
  match raw with
  | none => ⟨1900, 1, 1⟩
  | some s =>
    if s = "" then ⟨1900, 1, 1⟩
    else (strptimeChain (pyStrip s.data)).getD ⟨1900, 1, 1⟩

/-- Zero-padded strftime("%d")-style two-digit rendering. -/
def pad2 (n : Nat) : List Char := [dCh (n / 10 % 10), dCh (n % 10)]

/-- Zero-padded strftime("%Y")-style four-digit rendering. -/
def pad4 (n : Nat) : List Char :=
  [dCh (n / 1000 % 10), dCh (n / 100 % 10), dCh (n / 10 % 10), dCh (n % 10)]

/-- ISO rendering of a date, as strftime("%Y-%m-%d") produces for the
years > 1900 it is applied to. -/
def isoChars (y m d : Nat) : List Char :=
  pad4 y ++ '-' :: (pad2 m ++ '-' :: pad2 d)

/-- src/main.py _fmt_date_iso: canonical YYYY-MM-DD, or None when the
parsed (or sentinel) year is not greater than 1900. -/
def fmt_date_iso (raw : Option String) : Option String :=
  let dt := parse_date_safe raw
  if 1900 < dt.y then some (String.mk (isoChars dt.y dt.m dt.d)) else none

/-! ## Text clipper -/

/-- Worker for Python str.split() with no argument: acc holds the
characters of the current word, reversed. -/
def splitWSAux : List Char → List Char → List (List Char)
  | [], [] => []
  | [], acc => [acc.reverse]
  | c :: rest, acc =>
    if isSpB c then
      match acc with
      | [] => splitWSAux rest []
      | _ => acc.reverse :: splitWSAux rest []
    else splitWSAux rest (c :: acc)

/-- Python str.split() with no argument: maximal runs of non-whitespace. -/
def splitWS (cs : List Char) : List (List Char) := splitWSAux cs []

/-- " ".join(ws): the words joined by single spaces. -/
def joinSp : List (List Char) → List Char
  | [] => []
  | [w] => w
  | w :: v :: ws => w ++ ' ' :: joinSp (v :: ws)

/-- " ".join(text.split()): collapse whitespace runs, trim the ends. -/
def normWS (cs : List Char) : List Char := joinSp (splitWS cs)

/-- A proper word list: every word nonempty and whitespace-free (what
str.split() produces, and what " ".join reverses). -/
def wordsOK (ws : List (List Char)) : Prop :=
  ∀ w ∈ ws, w ≠ [] ∧ ∀ c ∈ w, isSpB c = false

/-- Tail after the first ' ' (exact space character), if any. -/
def afterFirstSpace : List Char → Option (List Char)
  | [] => none
  | c :: r => if c = ' ' then some r else afterFirstSpace r

/-- Python text.rsplit(" ", 1)[0]: everything before the last space
character, or the whole string when it has no space. -/
def dropLastWord (cs : List Char) : List Char :=
  match afterFirstSpace cs.reverse with
  | some r => r.reverse
  | none => cs

/-- Core of _clip on an already normalized character list. -/
def clipChars (nw : List Char) (n : Nat) : List Char :=
  if nw.length ≤ n then nw else dropLastWord (nw.take n) ++ ['…']

/-- src/main.py _clip: None or empty input gives None; otherwise normalize
whitespace and softly cut to n characters at a word boundary. -/
def clip (text : Option String) (n : Nat) : Option String :=
  match text with
  | none => none
  | some s =>
    if s = "" then none
    else some (String.mk (clipChars (normWS s.data) n))

/-- src/main.py _translate_ru with the GoogleTranslator call modelled by
tr (tr returning none models both a raised exception and a None result).
A translation longer than 500 characters is cut like _clip but without
re-normalizing whitespace. -/
def translate_ru (tr : String → Option String) (text : Option String) :
    Option String :=
  match text with
  | none => none
  | some s =>
    if s = "" then none
    else
      match tr (String.mk (pyStrip s.data)) with
      | none => none
      | some t =>
        if 500 < t.data.length then
          some (String.mk (dropLastWord (t.data.take 500) ++ ['…']))
        else some t

/-! ## Data model -/

/-- Pydantic PatentItem of src/main.py. -/
structure PatentItem where
  publicationNumber : String
  kindCode : Option String := none
  country : Option String := none
  publicationDate : Option String := none
  titleOriginal : String
  titleRu : Option String := none
  abstractOriginal : Option String := none
  abstractRu : Option String := none
  applicants : List String := []
  inventors : List String := []
  ipc : List String := []
  cpc : List String := []
  linkEspacenet : String
  linkPdf : Option String := none
deriving DecidableEq, Repr

/-- Pydantic SearchResponse of src/main.py.  total is a Nat because both
producing paths compute it as a count / digit-string value. -/
structure SearchResponse where
  total : Nat
  page : Int
  size : Int
  nextPage : Option Int := none
  items : List PatentItem
deriving DecidableEq, Repr

/-! ## Sorting

Python list.sort(key=k, reverse=True) is the stable descending sort by k;
stable insertion sort from the right is extensionally the same function. -/

def insertDesc {α : Type} (key : α → Nat) (a : α) : List α → List α
  | [] => [a]
  | b :: bs => if key a ≤ key b then b :: insertDesc key a bs else a :: b :: bs

def sortDesc {α : Type} (key : α → Nat) : List α → List α
  | [] => []
  | a :: as => insertDesc key a (sortDesc key as)

/-- The sort key used by src/main.py: the datetime of the record's
publicationDate (sentinel 1900-01-01 when absent or unparseable). -/
def dkey (it : PatentItem) : Nat := (parse_date_safe it.publicationDate).key

/-! ## Upstream response parser

The ElementTree values the parser walks are modelled by the Xml tree
below; tags keep their namespace as a short prefix ("ex:" for
http://www.epo.org/exchange, "ops:" for http://ops.epo.org) and the
xml:lang attribute is stored under the key "xml:lang". -/

structure Xml where
  tag : String
  attrs : List (String × String)
  text : Option String
  children : List Xml

mutual
/-- Descendants of one node. -/
def descOf : Xml → List Xml
  | ⟨_, _, _, children⟩ => descList children

/-- All descendants of the given nodes in document (preorder) order,
as ElementTree .findall(".//tag") enumerates them. -/
def descList : List Xml → List Xml
  | [] => []
  | c :: rest => c :: (descOf c ++ descList rest)
end

/-- element.findall(".//" + t): descendants with the given tag. -/
def findallD (x : Xml) (t : String) : List Xml :=
  (descList x.children).filter (fun e => e.tag == t)

/-- element.find(".//" + t): first such descendant. -/
def findD (x : Xml) (t : String) : Option Xml := (findallD x t).head?

/-- element.get(k) / element.attrib.get(k). -/
def getAttr (x : Xml) (k : String) : Option String :=
  ((x.attrs.find? (fun p => p.1 == k)).map (fun p => p.2))

/-- Python falsiness of an Optional[str]: None or the empty string. -/
def pyFalsyOpt (o : Option String) : Bool :=
  match o with
  | none => true
  | some s => s == ""

/-- Second iteration of the total extraction loop: the
"total-result-size" root attribute. -/
def totalFromSize (root : Xml) : Nat :=
  match getAttr root "total-result-size" with
  | some v => if pyIsDigit v.data then digitsVal v.data else 0
  | none => 0

/-- The loop over ["total-result-count", "total-result-size"] root
attributes: first numeric value wins, else 0. -/
def totalFromAttr (root : Xml) : Nat :=
  match getAttr root "total-result-count" with
  | some v => if pyIsDigit v.data then digitsVal v.data else totalFromSize root
  | none => totalFromSize root

/-- Total count extraction: root attributes first, then a nested
ops:total-result-count element when the attributes gave zero. -/
def totalOf (root : Xml) : Nat :=
  let t := totalFromAttr root
  if t = 0 then
    match findD root "ops:total-result-count" with
    | some el =>
      match el.text with
      | some tx => if tx ≠ "" && pyIsDigit tx.data then digitsVal tx.data else 0
      | none => 0
    | none => 0
  else t

/-- The invention-title selection loop: remember the first candidate when
none is held yet, stop at the first nonempty English-tagged one. -/
def titleLoop (acc : Option String) : List Xml → Option String
  | [] => acc
  | t :: rest =>
    let lang := pyLower ((getAttr t "xml:lang").getD "")
    let cand := String.mk (pyStrip ((t.text).getD "").data)
    let acc2 := if pyFalsyOpt acc then some cand else acc
    if lang == "en" && cand != "" then some cand
    else titleLoop acc2 rest

/-- Paragraphs of one abstract element joined by single spaces, then
stripped (only truthy paragraph texts contribute). -/
def joinedParts (ab : Xml) : String :=
  let parts := (findallD ab "ex:p").filterMap (fun p =>
    match p.text with
    | some tx => if tx ≠ "" then some (String.mk (pyStrip tx.data)) else none
    | none => none)
  String.mk (pyStrip (String.intercalate " " parts).data)

/-- The abstract selection loop: keep the first nonempty joined abstract,
stop at the first nonempty English-tagged one. -/
def absLoop (acc : Option String) : List Xml → Option String
  | [] => acc
  | ab :: rest =>
    let lang := pyLower ((getAttr ab "xml:lang").getD "")
    let joined := joinedParts ab
    let acc2 := if pyFalsyOpt acc && joined != "" then some joined else acc
    if lang == "en" && joined != "" then some joined
    else absLoop acc2 rest

/-- One ex:exchange-document node turned into a PatentItem. -/
def docToItem (doc : Xml) : PatentItem :=
  let country := String.mk (pyStrip ((getAttr doc "country").getD "").data)
  let docnum := String.mk (pyStrip ((getAttr doc "doc-number").getD "").data)
  let kind := String.mk (pyStrip ((getAttr doc "kind").getD "").data)
  let pn := country ++ docnum ++ kind
  let pub_date :=
    match findD doc "ex:document-id" with
    | some di =>
      match findD di "ex:date" with
      | some dtEl =>
        match dtEl.text with
        | some tx => if tx ≠ "" then fmt_date_iso (some tx) else none
        | none => none
      | none => none
    | none => none
  let title0 := titleLoop none (findallD doc "ex:invention-title")
  let title := if pyFalsyOpt title0 then "—" else title0.getD ""
  let absV := clip (absLoop none (findallD doc "ex:abstract")) 1200
  { publicationNumber := pn
    kindCode := if kind == "" then none else some kind
    country := if country == "" then none else some country
    publicationDate := pub_date
    titleOriginal := title
    abstractOriginal := absV
    linkEspacenet := "https://worldwide.espacenet.com/patent/search?q=pn%3D" ++ pn }

/-- src/main.py _parse_ops_xml after the ET.fromstring call: the Option
input models the try/except around fromstring (none = parse failure →
([], 0)). -/
def parse_ops_xml (root? : Option Xml) : List PatentItem × Nat :=
  match root? with
  | none => ([], 0)
  | some root =>
    (sortDesc dkey ((findallD root "ex:exchange-document").map docToItem),
     totalOf root)

/-! ## Python slicing -/

/-- Normalized index of a Python slice bound for a list of given length. -/
def pyIdx (len : Nat) (i : Int) : Nat :=
  if i < 0 then ((len : Int) + i).toNat else min i.toNat len

/-- Python l[s:e]. -/
def pySlice {α : Type} (l : List α) (s e : Int) : List α :=
  (l.take (pyIdx l.length e)).drop (pyIdx l.length s)

/-- Python l[:e]. -/
def pySliceTo {α : Type} (l : List α) (e : Int) : List α :=
  l.take (pyIdx l.length e)

/-! ## Orchestrator -/

/-- The effectful collaborators of one request, as explicit inputs:
the token provider outcome, the raw search call (by query, page, size,
token; .error models a raised exception), the XML parse of a response
body, and the translator. -/
structure Env where
  token : Option String
  search : String → Int → Int → String → Except Unit String
  fromstring : String → Option Xml
  tr : String → Option String

/-- The translated record list of the live path: every parsed record
gets titleRu / abstractRu set from the translator. -/
def liveItems (env : Env) (xml_text : String) : List PatentItem :=
  (parse_ops_xml (env.fromstring xml_text)).1.map fun it =>
    { it with titleRu := translate_ru env.tr (some it.titleOriginal)
              abstractRu := translate_ru env.tr it.abstractOriginal }

/-- The SearchResponse the live path builds from a successfully fetched
body: totals and items from the parse, nextPage from the requested
window, items cut to the requested size. -/
def liveResponse (env : Env) (xml_text : String) (page size : Int) :
    SearchResponse :=
  let start : Int := (page - 1) * size + 1
  { total := (parse_ops_xml (env.fromstring xml_text)).2
    page := page
    size := size
    nextPage :=
      if start - 1 + ((liveItems env xml_text).length : Int) <
          ((parse_ops_xml (env.fromstring xml_text)).2 : Int) then
        some (page + 1)
      else none
    items := pySliceTo (liveItems env xml_text) size }

/-- src/main.py fetch_real_patents: None when there is no token or the
search call raises; otherwise the parsed, translated, sliced live
response — whatever the parsed total was. -/
def fetch_real_patents (env : Env) (query : String) (page size : Int) :
    Option SearchResponse :=
  match env.token with
  | none => none
  | some tok =>
    match env.search query page size tok with
    | .error _ => none
    | .ok xml_text => some (liveResponse env xml_text page size)

/-- The three hard-coded seed records of the demo pool. -/
def demoSeed : List PatentItem :=
  [{ publicationNumber := "CN120398169A"
     kindCode := some "A"
     country := some "CN"
     publicationDate := some "2025-08-01"
     titleOriginal := "Solar seawater desalination device for evaporation driven by immersed heat pipe"
     abstractOriginal := some "The invention provides a solar seawater desalination device for evaporation driven by an immersed heat pipe..."
     linkEspacenet := "https://worldwide.espacenet.com/patent/search?q=pn%3DCN120398169A" },
   { publicationNumber := "WO2025167351A1"
     kindCode := some "A1"
     country := some "WO"
     publicationDate := some "2025-06-12"
     titleOriginal := "Solar desalination and purification apparatus"
     abstractOriginal := some "An apparatus combining solar thermal collection with multi-effect evaporation for brine desalination..."
     linkEspacenet := "https://worldwide.espacenet.com/patent/search?q=pn%3DWO2025167351A1" },
   { publicationNumber := "US12421136B1"
     kindCode := some "B1"
     country := some "US"
     publicationDate := some "2022-01-10"
     titleOriginal := "Solar desalination system"
     abstractOriginal := some "A system for solar-driven desalination using integrated photothermal and membrane modules..."
     linkEspacenet := "https://worldwide.espacenet.com/patent/search?q=pn%3DUS12421136B1" }]

/-- src/main.py _demo_pool: the fixed seed list, sorted newest-first,
then translated. -/
def demo_pool (env : Env) : List PatentItem :=
  (sortDesc dkey demoSeed).map fun it =>
    { it with titleRu := translate_ru env.tr (some it.titleOriginal)
              abstractRu := translate_ru env.tr it.abstractOriginal }

/-- src/main.py _paginate_demo. -/
def paginate_demo (env : Env) (page size : Int) : SearchResponse :=
  let pool := demo_pool env
  let total := pool.length
  let start := (page - 1) * size
  let e := start + size
  { total := total
    page := page
    size := size
    nextPage := if e < (total : Int) then some (page + 1) else none
    items := pySlice pool start e }

/-- GET /search handler (FastAPI has already coerced page and size to
ints; q defaults to "", page to 1, size to 25 at the route layer). -/
def search_get (env : Env) (q : String) (page size : Int) : SearchResponse :=
  match fetch_real_patents env q page size with
  | some sr => sr
  | none => paginate_demo env page size

/-! ## POST /search and Python int() -/

/-- A JSON payload value as the POST handler can see it. -/
inductive PyVal where
  | int (n : Int)
  | str (s : String)
  | null
deriving DecidableEq, Repr

/-- payload.get(k, d). -/
def pyGet (payload : List (String × PyVal)) (k : String) (d : PyVal) : PyVal :=
  ((payload.find? (fun p => p.1 == k)).map (fun p => p.2)).getD d

/-- Nonempty digit run possibly containing single underscores between
digits (Python int() accepts "1_0"). -/
def digitsURest : List Char → Bool
  | [] => true
  | '_' :: c :: rest => isDigC c && digitsURest rest
  | '_' :: [] => false
  | c :: rest => isDigC c && digitsURest rest

def digitsU : List Char → Bool
  | [] => false
  | c :: rest => isDigC c && digitsURest rest

/-- Python int() on a string: strip, optional sign, digits (with
underscore separators); anything else raises (none). -/
def pyIntStr (s : String) : Option Int :=
  let cs := pyStrip s.data
  match cs with
  | '+' :: rest =>
    if digitsU rest then some ((digitsVal (rest.filter (fun c => c != '_')) : Int))
    else none
  | '-' :: rest =>
    if digitsU rest then some (-(digitsVal (rest.filter (fun c => c != '_')) : Int))
    else none
  | _ =>
    if digitsU cs then some ((digitsVal (cs.filter (fun c => c != '_')) : Int))
    else none

/-- Python int(v) on a payload value: ints pass through, strings are
parsed, None raises TypeError (none). -/
def pyInt (v : PyVal) : Option Int :=
  match v with
  | .int n => some n
  | .str s => pyIntStr s
  | .null => none

/-- Python str() rendering of a payload value, used only to thread the
query through to the search call. -/
def pyValStr (v : PyVal) : String :=
  match v with
  | .int n => toString n
  | .str s => s
  | .null => "None"

/-- POST /search handler: int() on page and size may raise (none = an
unhandled exception, surfaced as a 500 by the framework). -/
def search_post (env : Env) (payload : List (String × PyVal)) :
    Option SearchResponse :=
  match pyInt (pyGet payload "page" (.int 1)) with
  | none => none
  | some page =>
    match pyInt (pyGet payload "size" (.int 25)) with
    | none => none
    | some size =>
      some (search_get env (pyValStr (pyGet payload "query" (.str ""))) page size)

/-! ## Concrete environments used as test inputs -/

/-- A translator that always fails (network down / quota exhausted). -/
def trNone : String → Option String := fun _ => none

/-- No credentials configured: the token provider returns None. -/
def demoEnv : Env := ⟨none, fun _ _ _ _ => .error (), fun _ => none, trNone⟩

/-- Credentials fine, HTTP 200, but the body parses to an XML document
with no results and no total attribute: the parse yields ([], 0). -/
def liveZeroEnv : Env :=
  ⟨some "tok", fun _ _ _ _ => .ok "<r/>",
   fun _ => some ⟨"r", [], none, []⟩, trNone⟩

/-- A root whose single exchange-document node carries no attributes at
all (no country, doc-number or kind). -/
def emptyDocRoot : Xml :=
  ⟨"r", [("total-result-count", "1")], none,
   [⟨"ex:exchange-document", [], none, []⟩]⟩

/-- Credentials fine, HTTP 200, body parses to emptyDocRoot. -/
def liveEmptyDocEnv : Env :=
  ⟨some "tok", fun _ _ _ _ => .ok "<resp/>",
   fun _ => some emptyDocRoot, trNone⟩

/-- A document node with one two-paragraph abstract. -/
def absDoc : Xml :=
  ⟨"ex:exchange-document", [("country", "US"), ("doc-number", "1")], none,
   [⟨"ex:abstract", [], none,
     [⟨"ex:p", [], some " p1 ", []⟩, ⟨"ex:p", [], some "p2", []⟩]⟩]⟩

/-- A root carrying absDoc. -/
def absRoot : Xml := ⟨"r", [], none, [absDoc]⟩

/-! # Lemmas about the stable descending sort -/

theorem perm_insertDesc {α : Type} (key : α → Nat) (a : α) (l : List α) :
    List.Perm (insertDesc key a l) (a :: l) := by
  induction l with
  | nil => exact List.Perm.refl _
  | cons b bs ih =>
    simp only [insertDesc]
    split
    · exact (ih.cons b).trans (List.Perm.swap a b bs)
    · exact List.Perm.refl _

theorem perm_sortDesc {α : Type} (key : α → Nat) (l : List α) :
    List.Perm (sortDesc key l) l := by
  induction l with
  | nil => exact List.Perm.refl _
  | cons a as ih => exact (perm_insertDesc key a (sortDesc key as)).trans (ih.cons a)

theorem mem_sortDesc {α : Type} {key : α → Nat} {x : α} {l : List α} :
    x ∈ sortDesc key l ↔ x ∈ l :=
  (perm_sortDesc key l).mem_iff

theorem mem_insertDesc {α : Type} {key : α → Nat} {x a : α} {l : List α} :
    x ∈ insertDesc key a l ↔ x = a ∨ x ∈ l := by
  rw [(perm_insertDesc key a l).mem_iff, List.mem_cons]

theorem sorted_insertDesc {α : Type} (key : α → Nat) (a : α) {l : List α}
    (h : l.Pairwise (fun x y => key y ≤ key x)) :
    (insertDesc key a l).Pairwise (fun x y => key y ≤ key x) := by
  induction l with
  | nil => simp [insertDesc]
  | cons b bs ih =>
    rw [List.pairwise_cons] at h
    simp only [insertDesc]
    split
    · rw [List.pairwise_cons]
      refine ⟨fun y hy => ?_, ih h.2⟩
      rcases mem_insertDesc.mp hy with rfl | hy
      · assumption
      · exact h.1 y hy
    · rw [List.pairwise_cons]
      refine ⟨fun y hy => ?_, List.pairwise_cons.mpr h⟩
      rcases List.mem_cons.mp hy with rfl | hy
      · omega
      · have := h.1 y hy; omega

theorem sorted_sortDesc {α : Type} (key : α → Nat) (l : List α) :
    (sortDesc key l).Pairwise (fun x y => key y ≤ key x) := by
  induction l with
  | nil => simp [sortDesc]
  | cons a as ih => exact sorted_insertDesc key a ih

/-! # Lemmas about the date normalizer -/

theorem dCh_facts : ∀ k, k < 10 →
    isDigC (dCh k) = true ∧ dv (dCh k) = k ∧ isSpB (dCh k) = false ∧
    dCh k ≠ '-' := by decide

theorem daysInMonth_le31 (y m : Nat) : daysInMonth y m ≤ 31 := by
  unfold daysInMonth
  split
  · split <;> omega
  · split <;> omega

theorem dateOK_bounds {y m d : Nat} (h : dateOK y m d = true) :
    1 ≤ y ∧ y ≤ 9999 ∧ 1 ≤ m ∧ m ≤ 12 ∧ 1 ≤ d ∧ d ≤ 31 := by
  have h31 := daysInMonth_le31 y m
  unfold dateOK at h
  simp only [Bool.and_eq_true, decide_eq_true_eq] at h
  omega

theorem read4_cons (a b c d : Char) (rest : List Char) :
    read4 (a :: b :: c :: d :: rest) =
      if isDigC a && isDigC b && isDigC c && isDigC d then
        some (((dv a * 10 + dv b) * 10 + dv c) * 10 + dv d, rest)
      else none := rfl

theorem read4_pad4 (y : Nat) (rest : List Char) (hy : y ≤ 9999) :
    read4 (pad4 y ++ rest) = some (y, rest) := by
  have h1 : y / 1000 % 10 < 10 := Nat.mod_lt _ (by norm_num)
  have h2 : y / 100 % 10 < 10 := Nat.mod_lt _ (by norm_num)
  have h3 : y / 10 % 10 < 10 := Nat.mod_lt _ (by norm_num)
  have h4 : y % 10 < 10 := Nat.mod_lt _ (by norm_num)
  simp only [pad4, List.cons_append, List.nil_append, read4_cons,
    (dCh_facts _ h1).1, (dCh_facts _ h2).1, (dCh_facts _ h3).1,
    (dCh_facts _ h4).1, (dCh_facts _ h1).2.1, (dCh_facts _ h2).2.1,
    (dCh_facts _ h3).2.1, (dCh_facts _ h4).2.1, Bool.and_self, if_true]
  have : ((y / 1000 % 10 * 10 + y / 100 % 10) * 10 + y / 10 % 10) * 10 +
      y % 10 = y := by omega
  rw [this]

theorem dropWhile_sp_eq_self {cs : List Char}
    (h : ∀ c ∈ cs, isSpB c = false) : cs.dropWhile isSpB = cs := by
  cases cs with
  | nil => rfl
  | cons c r =>
    exact List.dropWhile_cons_of_neg (by simp [h c (List.mem_cons_self c r)])

theorem pyStrip_eq_self {cs : List Char}
    (h : ∀ c ∈ cs, isSpB c = false) : pyStrip cs = cs := by
  unfold pyStrip
  rw [dropWhile_sp_eq_self h,
      dropWhile_sp_eq_self (fun c hc => h c (List.mem_reverse.mp hc)),
      List.reverse_reverse]

theorem mem_pad2_nonspace {m : Nat} {c : Char} (hc : c ∈ pad2 m) :
    isSpB c = false := by
  have h1 : m / 10 % 10 < 10 := Nat.mod_lt _ (by norm_num)
  have h2 : m % 10 < 10 := Nat.mod_lt _ (by norm_num)
  simp only [pad2, List.mem_cons, List.not_mem_nil, or_false] at hc
  rcases hc with rfl | rfl
  · exact (dCh_facts _ h1).2.2.1
  · exact (dCh_facts _ h2).2.2.1

theorem mem_pad4_nonspace {y : Nat} {c : Char} (hc : c ∈ pad4 y) :
    isSpB c = false := by
  have h1 : y / 1000 % 10 < 10 := Nat.mod_lt _ (by norm_num)
  have h2 : y / 100 % 10 < 10 := Nat.mod_lt _ (by norm_num)
  have h3 : y / 10 % 10 < 10 := Nat.mod_lt _ (by norm_num)
  have h4 : y % 10 < 10 := Nat.mod_lt _ (by norm_num)
  simp only [pad4, List.mem_cons, List.not_mem_nil, or_false] at hc
  rcases hc with rfl | rfl | rfl | rfl
  · exact (dCh_facts _ h1).2.2.1
  · exact (dCh_facts _ h2).2.2.1
  · exact (dCh_facts _ h3).2.2.1
  · exact (dCh_facts _ h4).2.2.1

/-- Unfolding parse_date_safe on a nonempty, whitespace-free literal. -/
theorem parse_mk {l : List Char} (h0 : l ≠ [])
    (h : ∀ c ∈ l, isSpB c = false) :
    parse_date_safe (some (String.mk l)) =
      (strptimeChain l).getD ⟨1900, 1, 1⟩ := by
  have hne : String.mk l ≠ "" := fun hEq => h0 (congrArg String.data hEq)
  show (if String.mk l = "" then (⟨1900, 1, 1⟩ : PyDate)
        else (strptimeChain (pyStrip (String.mk l).data)).getD ⟨1900, 1, 1⟩) =
       (strptimeChain l).getD ⟨1900, 1, 1⟩
  rw [if_neg hne, show (String.mk l).data = l from rfl, pyStrip_eq_self h]

/-- The %m%d matcher on a zero-padded month-day pair: the padded
interpretation is the backtracking-first full match. -/
theorem mdlast_pad2 : ∀ m, 1 ≤ m → m < 13 → ∀ d, 1 ≤ d → d < 32 →
    matchMDlast (pad2 m ++ pad2 d) = some (m, d, []) := by decide

/-- On an ISO tail the %Y%m%d matcher fails (no month starts with the
dash) and the %Y-%m-%d matcher recovers the padded month and day. -/
theorem md_iso : ∀ m, 1 ≤ m → m < 13 → ∀ d, 1 ≤ d → d < 32 →
    matchMDlast ('-' :: (pad2 m ++ '-' :: pad2 d)) = none ∧
    matchMDdash (pad2 m ++ '-' :: pad2 d) = some (m, d, []) := by decide

/-- On a bare zero-padded month below 11, %Y%m%d finds no full match and
the %m head candidate is the padded month. -/
theorem md_pad2_low : ∀ m, 1 ≤ m → m < 11 →
    matchMDlast (pad2 m) = none ∧ (mCands (pad2 m)).head? = some (m, []) := by
  decide

/-- November and December tails are swallowed by %Y%m%d as month 1 with
day (m - 10): the 1[0-2] alternative leaves nothing for %d, so the
engine backtracks to the one-digit month. -/
theorem md_pad2_high :
    matchMDlast (pad2 11) = some (1, 1, []) ∧
    matchMDlast (pad2 12) = some (1, 2, []) := by decide

theorem tryYmd_digits8 {y m d : Nat} (h : dateOK y m d = true) :
    tryYmd (pad4 y ++ (pad2 m ++ pad2 d)) = some ⟨y, m, d⟩ := by
  obtain ⟨h1, h2, h3, h4, h5, h6⟩ := dateOK_bounds h
  unfold tryYmd
  rw [read4_pad4 _ _ h2, Option.some_bind,
      mdlast_pad2 m h3 (by omega) d h5 (by omega), Option.some_bind]
  simp [h]

theorem strptimeChain_digits8 {y m d : Nat} (h : dateOK y m d = true) :
    strptimeChain (pad4 y ++ (pad2 m ++ pad2 d)) = some ⟨y, m, d⟩ := by
  unfold strptimeChain
  rw [tryYmd_digits8 h]

theorem strptimeChain_iso {y m d : Nat} (h : dateOK y m d = true) :
    strptimeChain (isoChars y m d) = some ⟨y, m, d⟩ := by
  obtain ⟨h1, h2, h3, h4, h5, h6⟩ := dateOK_bounds h
  obtain ⟨hA, hB⟩ := md_iso m h3 (by omega) d h5 (by omega)
  have hYmd : tryYmd (isoChars y m d) = none := by
    unfold tryYmd
    rw [show isoChars y m d = pad4 y ++ ('-' :: (pad2 m ++ '-' :: pad2 d))
          from by simp [isoChars],
        read4_pad4 _ _ h2, Option.some_bind, hA]
    rfl
  have hDash : tryYmdDash (isoChars y m d) = some ⟨y, m, d⟩ := by
    unfold tryYmdDash
    rw [show isoChars y m d = pad4 y ++ ('-' :: (pad2 m ++ '-' :: pad2 d))
          from by simp [isoChars],
        read4_pad4 _ _ h2, Option.some_bind]
    show (if ('-' : Char) = '-' then _ else none) = _
    rw [if_pos rfl, hB, Option.some_bind]
    simp [h]
  unfold strptimeChain
  rw [hYmd, hDash]

theorem strptimeChain_digits6_low {y m : Nat} (h : dateOK y m 1 = true)
    (hm : m ≤ 10) : strptimeChain (pad4 y ++ pad2 m) = some ⟨y, m, 1⟩ := by
  obtain ⟨h1, h2, h3, h4, h5, h6⟩ := dateOK_bounds h
  obtain ⟨hA, hB⟩ := md_pad2_low m h3 (by omega)
  have hYmd : tryYmd (pad4 y ++ pad2 m) = none := by
    unfold tryYmd
    rw [read4_pad4 _ _ h2, Option.some_bind, hA]
    rfl
  have hDash : tryYmdDash (pad4 y ++ pad2 m) = none := by
    unfold tryYmdDash
    rw [read4_pad4 _ _ h2, Option.some_bind]
    have hmlt : m / 10 % 10 < 10 := Nat.mod_lt _ (by norm_num)
    show (if dCh (m / 10 % 10) = '-' then _ else none) = _
    rw [if_neg (dCh_facts _ hmlt).2.2.2]
  have hYm : tryYm (pad4 y ++ pad2 m) = some ⟨y, m, 1⟩ := by
    unfold tryYm
    rw [read4_pad4 _ _ h2, Option.some_bind, hB, Option.some_bind]
    simp [h]
  unfold strptimeChain
  rw [hYmd, hDash, hYm]

/-- November / December YYYYMM inputs are mis-parsed by the first format:
"YYYY11" gives January 1, "YYYY12" gives January 2 of that year. -/
theorem strptimeChain_digits6_high {y : Nat} (h1 : 1 ≤ y) (h2 : y ≤ 9999) :
    strptimeChain (pad4 y ++ pad2 11) = some ⟨y, 1, 1⟩ ∧
    strptimeChain (pad4 y ++ pad2 12) = some ⟨y, 1, 2⟩ := by
  have hOK1 : dateOK y 1 1 = true := by
    unfold dateOK daysInMonth; simp; omega
  have hOK2 : dateOK y 1 2 = true := by
    unfold dateOK daysInMonth; simp; omega
  constructor
  · have hYmd : tryYmd (pad4 y ++ pad2 11) = some ⟨y, 1, 1⟩ := by
      unfold tryYmd
      rw [read4_pad4 _ _ h2, Option.some_bind, md_pad2_high.1,
          Option.some_bind]
      simp [hOK1]
    unfold strptimeChain
    rw [hYmd]
  · have hYmd : tryYmd (pad4 y ++ pad2 12) = some ⟨y, 1, 2⟩ := by
      unfold tryYmd
      rw [read4_pad4 _ _ h2, Option.some_bind, md_pad2_high.2,
          Option.some_bind]
      simp [hOK2]
    unfold strptimeChain
    rw [hYmd]

theorem strptimeChain_digits4 {y : Nat} (h1 : 1 ≤ y) (h2 : y ≤ 9999) :
    strptimeChain (pad4 y) = some ⟨y, 1, 1⟩ := by
  have hOK : dateOK y 1 1 = true := by
    unfold dateOK daysInMonth; simp; omega
  have hApp : pad4 y = pad4 y ++ [] := by simp
  have hYmd : tryYmd (pad4 y) = none := by
    unfold tryYmd
    rw [hApp, read4_pad4 _ _ h2, Option.some_bind]
    rfl
  have hDash : tryYmdDash (pad4 y) = none := by
    unfold tryYmdDash
    rw [hApp, read4_pad4 _ _ h2, Option.some_bind]
  have hYm : tryYm (pad4 y) = none := by
    unfold tryYm
    rw [hApp, read4_pad4 _ _ h2, Option.some_bind]
    rfl
  have hY : tryY (pad4 y) = some ⟨y, 1, 1⟩ := by
    unfold tryY
    rw [hApp, read4_pad4 _ _ h2, Option.some_bind]
    simp [hOK]
  unfold strptimeChain
  rw [hYmd, hDash, hYm, hY]

theorem fmt_of_parse {raw : Option String} {y m d : Nat}
    (hp : parse_date_safe raw = ⟨y, m, d⟩) (hy : 1900 < y) :
    fmt_date_iso raw = some (String.mk (isoChars y m d)) := by
  unfold fmt_date_iso
  rw [hp]
  simp [hy]

theorem fmt_of_parse_low {raw : Option String}
    (hy : (parse_date_safe raw).y ≤ 1900) : fmt_date_iso raw = none := by
  unfold fmt_date_iso
  simp
  omega

theorem parse_digits8 {y m d : Nat} (h : dateOK y m d = true) :
    parse_date_safe (some (String.mk (pad4 y ++ (pad2 m ++ pad2 d)))) =
      ⟨y, m, d⟩ := by
  rw [parse_mk (by simp [pad4])
        (fun c hc => by
          rcases List.mem_append.mp hc with h1 | h1
          · exact mem_pad4_nonspace h1
          · rcases List.mem_append.mp h1 with h2 | h2
            · exact mem_pad2_nonspace h2
            · exact mem_pad2_nonspace h2),
      strptimeChain_digits8 h]
  rfl

theorem parse_iso {y m d : Nat} (h : dateOK y m d = true) :
    parse_date_safe (some (String.mk (isoChars y m d))) = ⟨y, m, d⟩ := by
  rw [parse_mk (by simp [isoChars, pad4])
        (fun c hc => by
          unfold isoChars at hc
          rcases List.mem_append.mp hc with h1 | h1
          · exact mem_pad4_nonspace h1
          · rcases List.mem_cons.mp h1 with rfl | h2
            · decide
            · rcases List.mem_append.mp h2 with h3 | h3
              · exact mem_pad2_nonspace h3
              · rcases List.mem_cons.mp h3 with rfl | h4
                · decide
                · exact mem_pad2_nonspace h4),
      strptimeChain_iso h]
  rfl

theorem parse_digits6_low {y m : Nat} (h : dateOK y m 1 = true)
    (hm : m ≤ 10) :
    parse_date_safe (some (String.mk (pad4 y ++ pad2 m))) = ⟨y, m, 1⟩ := by
  rw [parse_mk (by simp [pad4])
        (fun c hc => by
          rcases List.mem_append.mp hc with h1 | h1
          · exact mem_pad4_nonspace h1
          · exact mem_pad2_nonspace h1),
      strptimeChain_digits6_low h hm]
  rfl

theorem parse_digits6_high {y : Nat} (h1 : 1 ≤ y) (h2 : y ≤ 9999) :
    parse_date_safe (some (String.mk (pad4 y ++ pad2 11))) = ⟨y, 1, 1⟩ ∧
    parse_date_safe (some (String.mk (pad4 y ++ pad2 12))) = ⟨y, 1, 2⟩ := by
  have hns : ∀ m : Nat, ∀ c ∈ pad4 y ++ pad2 m, isSpB c = false := by
    intro m c hc
    rcases List.mem_append.mp hc with hA | hA
    · exact mem_pad4_nonspace hA
    · exact mem_pad2_nonspace hA
  constructor
  · rw [parse_mk (by simp [pad4]) (hns 11), (strptimeChain_digits6_high h1 h2).1]
    rfl
  · rw [parse_mk (by simp [pad4]) (hns 12), (strptimeChain_digits6_high h1 h2).2]
    rfl

theorem parse_digits4 {y : Nat} (h1 : 1 ≤ y) (h2 : y ≤ 9999) :
    parse_date_safe (some (String.mk (pad4 y))) = ⟨y, 1, 1⟩ := by
  rw [parse_mk (by simp [pad4]) (fun c hc => mem_pad4_nonspace hc),
      strptimeChain_digits4 h1 h2]
  rfl

theorem parse_of_chain_none {s : String}
    (h : strptimeChain (pyStrip s.data) = none) :
    parse_date_safe (some s) = ⟨1900, 1, 1⟩ := by
  show (if s = "" then (⟨1900, 1, 1⟩ : PyDate)
        else (strptimeChain (pyStrip s.data)).getD ⟨1900, 1, 1⟩) = _
  by_cases hs : s = ""
  · rw [if_pos hs]
  · rw [if_neg hs, h]
    rfl

/-! # Membership through slicing -/

theorem mem_pySlice {α : Type} {x : α} {l : List α} {s e : Int}
    (h : x ∈ pySlice l s e) : x ∈ l := by
  unfold pySlice at h
  exact List.mem_of_mem_take (List.mem_of_mem_drop h)

theorem mem_pySliceTo {α : Type} {x : α} {l : List α} {e : Int}
    (h : x ∈ pySliceTo l e) : x ∈ l := by
  unfold pySliceTo at h
  exact List.mem_of_mem_take h

/-! # Whitespace normalization -/

theorem splitWSAux_wordsOK :
    ∀ (cs acc : List Char), (∀ c ∈ acc, isSpB c = false) →
      ∀ w ∈ splitWSAux cs acc, w ≠ [] ∧ ∀ c ∈ w, isSpB c = false := by
  intro cs
  induction cs with
  | nil =>
    intro acc hacc w hw
    cases acc with
    | nil => exact absurd hw (by simp [splitWSAux])
    | cons a as =>
      have hww : w = (a :: as).reverse := by simpa [splitWSAux] using hw
      subst hww
      exact ⟨by simp, fun c hc => hacc c (List.mem_reverse.mp hc)⟩
  | cons c rest ih =>
    intro acc hacc w hw
    by_cases hsp : isSpB c = true
    · cases acc with
      | nil =>
        exact ih [] (by simp) w (by simpa [splitWSAux, hsp] using hw)
      | cons a as =>
        have hw2 : w = (a :: as).reverse ∨ w ∈ splitWSAux rest [] := by
          simpa [splitWSAux, hsp] using hw
        rcases hw2 with rfl | hw2
        · exact ⟨by simp, fun x hx => hacc x (List.mem_reverse.mp hx)⟩
        · exact ih [] (by simp) w hw2
    · have hsp2 : isSpB c = false := by simpa using hsp
      refine ih (c :: acc) ?_ w (by simpa [splitWSAux, hsp2] using hw)
      intro x hx
      rcases List.mem_cons.mp hx with rfl | hx
      · exact hsp2
      · exact hacc x hx

theorem splitWS_wordsOK (cs : List Char) : wordsOK (splitWS cs) :=
  splitWSAux_wordsOK cs [] (by simp)

theorem splitWSAux_push :
    ∀ (w cs acc : List Char), (∀ c ∈ w, isSpB c = false) →
      splitWSAux (w ++ cs) acc = splitWSAux cs (w.reverse ++ acc) := by
  intro w
  induction w with
  | nil => intro cs acc _; simp
  | cons c w2 ih =>
    intro cs acc hw
    have hc : isSpB c = false := hw c (List.mem_cons_self c w2)
    have h1 : splitWSAux ((c :: w2) ++ cs) acc =
        splitWSAux (w2 ++ cs) (c :: acc) := by
      simp [splitWSAux, hc]
    rw [h1, ih cs (c :: acc) (fun x hx => hw x (List.mem_cons_of_mem c hx))]
    simp

theorem splitWS_single {w : List Char} (hne : w ≠ [])
    (hw : ∀ c ∈ w, isSpB c = false) : splitWS w = [w] := by
  unfold splitWS
  have h1 : splitWSAux (w ++ []) [] = splitWSAux [] (w.reverse ++ []) :=
    splitWSAux_push w [] [] hw
  simp only [List.append_nil] at h1
  rw [h1]
  cases hrev : w.reverse with
  | nil => exact absurd (by simpa using hrev) hne
  | cons a as =>
    show [(a :: as).reverse] = [w]
    rw [← hrev, List.reverse_reverse]

theorem splitWS_joinSp : ∀ ws, wordsOK ws → splitWS (joinSp ws) = ws := by
  intro ws
  induction ws with
  | nil => intro _; rfl
  | cons w ws2 ih =>
    intro hOK
    have hw := hOK w (List.mem_cons_self w ws2)
    cases ws2 with
    | nil => exact splitWS_single hw.1 hw.2
    | cons v ws3 =>
      have hOK2 : wordsOK (v :: ws3) :=
        fun x hx => hOK x (List.mem_cons_of_mem w hx)
      show splitWSAux (w ++ ' ' :: joinSp (v :: ws3)) [] = w :: v :: ws3
      rw [splitWSAux_push w _ [] hw.2]
      simp only [List.append_nil]
      cases hr : w.reverse with
      | nil => exact absurd (by simpa using hr) hw.1
      | cons a as =>
        have h2 : splitWSAux (' ' :: joinSp (v :: ws3)) (a :: as) =
            (a :: as).reverse :: splitWSAux (joinSp (v :: ws3)) [] := rfl
        rw [h2, ← hr, List.reverse_reverse]
        show w :: splitWS (joinSp (v :: ws3)) = w :: v :: ws3
        rw [ih hOK2]

theorem normWS_joinSp {ws : List (List Char)} (h : wordsOK ws) :
    normWS (joinSp ws) = joinSp ws := by
  unfold normWS
  rw [splitWS_joinSp ws h]

theorem normWS_single {w : List Char} (hne : w ≠ [])
    (h : ∀ c ∈ w, isSpB c = false) : normWS w = w := by
  unfold normWS
  rw [splitWS_single hne h]
  rfl

theorem joinSp_chars {ws : List (List Char)} (h : wordsOK ws) :
    ∀ c ∈ joinSp ws, isSpB c = false ∨ c = ' ' := by
  induction ws with
  | nil => simp [joinSp]
  | cons w ws2 ih =>
    intro c hc
    cases ws2 with
    | nil => exact Or.inl ((h w (by simp)).2 c hc)
    | cons v ws3 =>
      simp only [joinSp] at hc
      rcases List.mem_append.mp hc with hcw | hcr
      · exact Or.inl ((h w (by simp)).2 c hcw)
      · rcases List.mem_cons.mp hcr with rfl | hcr
        · exact Or.inr rfl
        · exact ih (fun x hx => h x (List.mem_cons_of_mem w hx)) c hcr

/-! # The last-space surgery of rsplit -/

theorem afterFirstSpace_none {cs : List Char} (h : ' ' ∉ cs) :
    afterFirstSpace cs = none := by
  induction cs with
  | nil => rfl
  | cons c r ih =>
    show (if c = ' ' then some r else afterFirstSpace r) = none
    rw [if_neg (fun hc => h (by rw [← hc]; exact List.mem_cons_self c r)),
        ih (fun hm => h (List.mem_cons_of_mem c hm))]

theorem afterFirstSpace_append {as ys : List Char} (h : ' ' ∉ as) :
    afterFirstSpace (as ++ ' ' :: ys) = some ys := by
  induction as with
  | nil => rfl
  | cons a as2 ih =>
    show (if a = ' ' then some (as2 ++ ' ' :: ys)
          else afterFirstSpace (as2 ++ ' ' :: ys)) = some ys
    rw [if_neg (fun hc => h (by rw [← hc]; exact List.mem_cons_self a as2)),
        ih (fun hm => h (List.mem_cons_of_mem a hm))]

theorem dropLastWord_no_space {cs : List Char} (h : ' ' ∉ cs) :
    dropLastWord cs = cs := by
  unfold dropLastWord
  rw [afterFirstSpace_none (fun hm => h (List.mem_reverse.mp hm))]

theorem dropLastWord_last {p q : List Char} (hq : ' ' ∉ q) :
    dropLastWord (p ++ ' ' :: q) = p := by
  unfold dropLastWord
  have h1 : (p ++ ' ' :: q).reverse = q.reverse ++ ' ' :: p.reverse := by
    simp
  rw [h1, afterFirstSpace_append (fun hm => hq (List.mem_reverse.mp hm))]
  show p.reverse.reverse = p
  exact List.reverse_reverse p

theorem last_space_decomp {cs : List Char} (h : ' ' ∈ cs) :
    ∃ p q, cs = p ++ ' ' :: q ∧ ' ' ∉ q := by
  induction cs with
  | nil => cases h
  | cons c r ih =>
    by_cases hr : ' ' ∈ r
    · obtain ⟨p, q, hpq, hq⟩ := ih hr
      exact ⟨c :: p, q, by rw [hpq]; rfl, hq⟩
    · have hc : c = ' ' := by
        rcases List.mem_cons.mp h with h1 | h1
        · exact h1.symm
        · exact absurd h1 hr
      exact ⟨[], r, by rw [hc]; rfl, hr⟩

/-- A space inside a join of proper words is a separator: everything
before it is itself a join of a nonempty proper word list. -/
theorem joinSp_space_decomp :
    ∀ ws (p z : List Char), wordsOK ws → joinSp ws = p ++ ' ' :: z →
      ∃ ws1, wordsOK ws1 ∧ ws1 ≠ [] ∧ p = joinSp ws1 := by
  intro ws
  induction ws with
  | nil =>
    intro p z _ h
    exact absurd h (by simp [joinSp])
  | cons w ws2 ih =>
    intro p z hOK h
    cases ws2 with
    | nil =>
      exfalso
      have hmem : ' ' ∈ w := by
        have hj : w = p ++ ' ' :: z := h
        rw [hj]
        exact List.mem_append.mpr (Or.inr (List.mem_cons_self _ _))
      have := (hOK w (by simp)).2 ' ' hmem
      simp [isSpB] at this
    | cons v ws3 =>
      have hOK2 : wordsOK (v :: ws3) :=
        fun x hx => hOK x (List.mem_cons_of_mem w hx)
      have hj : w ++ ' ' :: joinSp (v :: ws3) = p ++ ' ' :: z := h
      rcases List.append_eq_append_iff.mp hj with ⟨a, hp, h2⟩ | ⟨c, hw, h4⟩
      · cases a with
        | nil =>
          refine ⟨[w], ?_, by simp, ?_⟩
          · intro x hx
            rw [List.mem_singleton] at hx
            subst hx
            exact hOK x (by simp)
          · rw [hp]
            simp [joinSp]
        | cons a0 a2 =>
          rw [List.cons_append] at h2
          injection h2 with h20 h21
          obtain ⟨ws1, hOK1, hne1, hpa⟩ := ih a2 z hOK2 h21
          refine ⟨w :: ws1, ?_, by simp, ?_⟩
          · intro x hx
            rcases List.mem_cons.mp hx with rfl | hx
            · exact hOK x (by simp)
            · exact hOK1 x hx
          · cases ws1 with
            | nil => exact absurd rfl hne1
            | cons u us =>
              rw [hp, ← h20, hpa]
              rfl
      · cases c with
        | nil =>
          refine ⟨[w], ?_, by simp, ?_⟩
          · intro x hx
            rw [List.mem_singleton] at hx
            subst hx
            exact hOK x (by simp)
          · rw [List.append_nil] at hw
            rw [← hw]
            simp [joinSp]
        | cons c0 c2 =>
          exfalso
          rw [List.cons_append] at h4
          injection h4 with h40 h41
          have hmem : ' ' ∈ w := by
            rw [hw, ← h40]
            exact List.mem_append.mpr (Or.inr (List.mem_cons_self _ _))
          have := (hOK w (by simp)).2 ' ' hmem
          simp [isSpB] at this

/-- Appending the ellipsis to a join of proper words gives another join
of proper words (the marker attaches to the last word). -/
theorem joinSp_append_last :
    ∀ ws, wordsOK ws → ws ≠ [] →
      ∃ ws2, wordsOK ws2 ∧ joinSp ws ++ ['…'] = joinSp ws2 := by
  intro ws
  induction ws with
  | nil => intro _ h; exact absurd rfl h
  | cons w ws2 ih =>
    intro hOK _
    cases ws2 with
    | nil =>
      refine ⟨[w ++ ['…']], ?_, rfl⟩
      intro x hx
      rw [List.mem_singleton] at hx
      subst hx
      refine ⟨by simp, ?_⟩
      intro c hc
      rcases List.mem_append.mp hc with hc | hc
      · exact (hOK w (by simp)).2 c hc
      · rw [List.mem_singleton] at hc
        subst hc
        decide
    | cons v ws3 =>
      have hOK2 : wordsOK (v :: ws3) :=
        fun x hx => hOK x (List.mem_cons_of_mem w hx)
      obtain ⟨ws2, hOK2b, hEq⟩ := ih hOK2 (by simp)
      cases ws2 with
      | nil =>
        exfalso
        have : joinSp (v :: ws3) ++ ['…'] = [] := hEq
        simp at this
      | cons u us =>
        refine ⟨w :: u :: us, ?_, ?_⟩
        · intro x hx
          rcases List.mem_cons.mp hx with rfl | hx
          · exact hOK x (by simp)
          · exact hOK2b x hx
        · show (w ++ ' ' :: joinSp (v :: ws3)) ++ ['…'] =
              w ++ ' ' :: joinSp (u :: us)
          rw [← hEq]
          simp

/-- Case analysis of the clipper core on a normalized string. -/
theorem clipChars_cases (ws : List (List Char)) (hOK : wordsOK ws) (n : Nat) :
    ((joinSp ws).length ≤ n ∧ clipChars (joinSp ws) n = joinSp ws) ∨
    (n < (joinSp ws).length ∧ ' ' ∉ (joinSp ws).take n ∧
       clipChars (joinSp ws) n = (joinSp ws).take n ++ ['…'] ∧
       (∀ c ∈ (joinSp ws).take n, isSpB c = false)) ∨
    (n < (joinSp ws).length ∧
       ∃ p q1, (joinSp ws).take n = p ++ ' ' :: q1 ∧ ' ' ∉ q1 ∧
         clipChars (joinSp ws) n = p ++ ['…'] ∧ p.length < n ∧
         (∃ ws1, wordsOK ws1 ∧ ws1 ≠ [] ∧ p = joinSp ws1) ∧
         (∃ z, joinSp ws = p ++ ' ' :: z)) := by
  by_cases hn : (joinSp ws).length ≤ n
  · left
    exact ⟨hn, by unfold clipChars; rw [if_pos hn]⟩
  · have hlt : n < (joinSp ws).length := by omega
    have hcc : clipChars (joinSp ws) n =
        dropLastWord ((joinSp ws).take n) ++ ['…'] := by
      unfold clipChars
      rw [if_neg hn]
    have htlen : ((joinSp ws).take n).length = n := by
      rw [List.length_take]
      omega
    by_cases hsp : ' ' ∈ (joinSp ws).take n
    · right; right
      refine ⟨hlt, ?_⟩
      obtain ⟨p, q1, ht, hq1⟩ := last_space_decomp hsp
      have hdlw : dropLastWord ((joinSp ws).take n) = p := by
        rw [ht]
        exact dropLastWord_last hq1
      have hplen : p.length < n := by
        have := congrArg List.length ht
        simp at this
        omega
      have hznw : joinSp ws = p ++ ' ' :: (q1 ++ (joinSp ws).drop n) := by
        conv_lhs => rw [← List.take_append_drop n (joinSp ws)]
        rw [ht]
        simp
      obtain ⟨ws1, hOK1, hne1, hpw⟩ := joinSp_space_decomp ws p _ hOK hznw
      exact ⟨p, q1, ht, hq1, by rw [hcc, hdlw], hplen,
             ⟨ws1, hOK1, hne1, hpw⟩, ⟨_, hznw⟩⟩
    · right; left
      refine ⟨hlt, hsp, ?_, ?_⟩
      · rw [hcc, dropLastWord_no_space hsp]
      · intro c hc
        rcases joinSp_chars hOK c (List.mem_of_mem_take hc) with h | rfl
        · exact h
        · exact absurd hc hsp

/-- Unfolding _clip on a nonempty input string. -/
theorem clip_some {s : String} (hs : s ≠ "") (n : Nat) :
    clip (some s) n = some (String.mk (clipChars (normWS s.data) n)) := by
  show (if s = "" then none
        else some (String.mk (clipChars (normWS s.data) n))) = _
  rw [if_neg hs]

/-- Length bounds for the clipper core on a normalized string: at most
n + 1 in general, at most n when the cut prefix contains a space, and
the identity when the whole string fits. -/
theorem clipChars_len_bounds (ws : List (List Char)) (hOK : wordsOK ws)
    (n : Nat) :
    (clipChars (joinSp ws) n).length ≤ n + 1 ∧
    (' ' ∈ (joinSp ws).take n → (clipChars (joinSp ws) n).length ≤ n) ∧
    ((joinSp ws).length ≤ n → clipChars (joinSp ws) n = joinSp ws) := by
  rcases clipChars_cases ws hOK n with
    ⟨hlen, hEq⟩ | ⟨hlt, hnosp, hEq, _⟩ |
    ⟨hlt, p, q1, ht, hq1, hEq, hplen, _, _⟩
  · exact ⟨by rw [hEq]; omega, fun _ => by rw [hEq]; omega, fun _ => hEq⟩
  · refine ⟨?_, fun hsp => absurd hsp hnosp,
            fun hle => absurd hle (by omega)⟩
    rw [hEq]
    have hlen2 : ((joinSp ws).take n).length = n := by
      rw [List.length_take]
      omega
    simp [hlen2]
  · refine ⟨?_, fun _ => ?_, fun hle => absurd hle (by omega)⟩
    · rw [hEq]; simp; omega
    · rw [hEq]; simp; omega

/-- Every abstract the parser attaches is at most 1201 characters (the
1200 clip limit plus the one-character ellipsis marker). -/
theorem abstract_len (root? : Option Xml) :
    ∀ it ∈ (parse_ops_xml root?).1, ∀ a : String,
      it.abstractOriginal = some a → a.data.length ≤ 1201 := by
  intro it hit a ha
  cases root? with
  | none => exact absurd hit (by simp [parse_ops_xml])
  | some root =>
    obtain ⟨doc, _, rfl⟩ := List.mem_map.mp (mem_sortDesc.mp hit)
    have hEq : (docToItem doc).abstractOriginal =
        clip (absLoop none (findallD doc "ex:abstract")) 1200 := rfl
    rw [hEq] at ha
    cases habs : absLoop none (findallD doc "ex:abstract") with
    | none =>
      rw [habs] at ha
      exact absurd ha (by simp [clip])
    | some s0 =>
      rw [habs] at ha
      by_cases hs0 : s0 = ""
      · subst hs0
        exact absurd ha (by simp [clip])
      · rw [clip_some hs0 1200] at ha
        injection ha with ha2
        rw [← ha2]
        show (clipChars (normWS s0.data) 1200).length ≤ 1201
        exact (clipChars_len_bounds (splitWS s0.data)
          (splitWS_wordsOK s0.data) 1200).1

/-! # Claim C8 -/

/-- C8, counterexample.  Idempotence fails on whitespace-only input:
clipping " " gives the empty string, clipping that again gives absence.
And the word-boundary property fails on a long space-free word: clipping
"aaaaa" to 3 gives "aaa…", whose body "aaa" neither sits at a space
boundary of the normalized input nor at its end — the word was split. -/
theorem c8_counterexample :
    clip (clip (some " ") 5) 5 ≠ clip (some " ") 5 ∧
    clip (some "aaaaa") 3 = some "aaa…" ∧
    ¬ ((∃ z, ("aaaaa" : String).data = ("aaa" : String).data ++ ' ' :: z) ∨
       ("aaa" : String).data = ("aaaaa" : String).data) := by
  refine ⟨by decide, by decide, ?_⟩
  rintro (⟨z, h⟩ | h)
  · rw [show ("aaaaa" : String).data = ['a', 'a', 'a', 'a', 'a'] from rfl,
        show ("aaa" : String).data = ['a', 'a', 'a'] from rfl] at h
    simp at h
  · exact absurd h (by decide)

/-- C8, amended.  For every input whose normalized form is nonempty,
the clipper is idempotent: clipping the clipped result again with the
same limit returns it unchanged.  The result is either the normalized
input itself, or a body plus the ellipsis marker where the body ends at
a space boundary of the normalized input — except when the first n
characters contain no space, in which case the body is the hard cut of
the first n characters (a split word).  (On whitespace-only inputs the
first clip returns the empty string and a second clip turns it into
absence, so idempotence needs the nonemptiness hypothesis.) -/
theorem c8_clip_idempotent (s : String) (n : Nat)
    (hne : normWS s.data ≠ []) :
    clip (clip (some s) n) n = clip (some s) n ∧
    (clip (some s) n = some (String.mk (normWS s.data)) ∨
     ∃ b, clip (some s) n = some (String.mk (b ++ ['…'])) ∧
       ((∃ z, normWS s.data = b ++ ' ' :: z) ∨
        (b = (normWS s.data).take n ∧ ' ' ∉ (normWS s.data).take n))) := by
  have hs : s ≠ "" := by
    intro h
    apply hne
    rw [h]
    rfl
  have hOK := splitWS_wordsOK s.data
  have hclip := clip_some hs n
  have hnwj : normWS s.data = joinSp (splitWS s.data) := rfl
  have hidem : normWS (normWS s.data) = normWS s.data := by
    rw [hnwj]
    exact normWS_joinSp hOK
  rcases clipChars_cases (splitWS s.data) hOK n with
    ⟨hlen, hEq⟩ | ⟨hlt, hnosp, hEq, hchars⟩ |
    ⟨hlt, p, q1, ht, hq1, hEq, hplen, ⟨ws1, hOK1, hne1, hpw⟩, z, hz⟩
  · rw [← hnwj] at hlen hEq
    constructor
    · rw [hclip, hEq]
      have hne2 : String.mk (normWS s.data) ≠ "" :=
        fun hc => hne (congrArg String.data hc)
      rw [clip_some hne2 n]
      show some (String.mk (clipChars (normWS (normWS s.data)) n)) = _
      rw [hidem, hEq]
    · left
      rw [hclip, hEq]
  · rw [← hnwj] at hlt hnosp hEq hchars
    have htlen : ((normWS s.data).take n).length = n := by
      rw [List.length_take]
      omega
    have hcharsAll : ∀ c ∈ (normWS s.data).take n ++ ['…'],
        isSpB c = false := by
      intro c hc
      rcases List.mem_append.mp hc with hc | hc
      · exact hchars c hc
      · rw [List.mem_singleton] at hc
        subst hc
        decide
    have hfix : normWS ((normWS s.data).take n ++ ['…']) =
        (normWS s.data).take n ++ ['…'] :=
      normWS_single (by simp) hcharsAll
    constructor
    · rw [hclip, hEq]
      have hne2 : String.mk ((normWS s.data).take n ++ ['…']) ≠ "" := by
        intro hc
        have := congrArg String.data hc
        simp at this
      rw [clip_some hne2 n]
      show some (String.mk
        (clipChars (normWS ((normWS s.data).take n ++ ['…'])) n)) = _
      rw [hfix]
      have hstep : clipChars ((normWS s.data).take n ++ ['…']) n =
          (normWS s.data).take n ++ ['…'] := by
        unfold clipChars
        rw [if_neg (by simp [htlen])]
        rw [List.take_left' htlen, dropLastWord_no_space hnosp]
      rw [hstep]
    · right
      exact ⟨(normWS s.data).take n, by rw [hclip, hEq],
             Or.inr ⟨rfl, hnosp⟩⟩
  · rw [← hnwj] at hlt ht hEq hz
    obtain ⟨ws2, hOK2, hJ⟩ := joinSp_append_last ws1 hOK1 hne1
    have hfix : normWS (p ++ ['…']) = p ++ ['…'] := by
      rw [hpw, hJ]
      exact normWS_joinSp hOK2
    constructor
    · rw [hclip, hEq]
      have hne2 : String.mk (p ++ ['…']) ≠ "" := by
        intro hc
        have := congrArg String.data hc
        simp at this
      rw [clip_some hne2 n]
      show some (String.mk (clipChars (normWS (p ++ ['…'])) n)) = _
      rw [hfix]
      have hstep : clipChars (p ++ ['…']) n = p ++ ['…'] := by
        unfold clipChars
        rw [if_pos (by simp; omega)]
      rw [hstep]
    · right
      exact ⟨p, by rw [hclip, hEq], Or.inl ⟨z, hz⟩⟩

/-- C8, witness: the amended theorem at "ab cd" with limit 4 (the result
"ab…" ends at the space boundary of the normalized input). -/
theorem c8_clip_idempotent_witness :
    clip (clip (some "ab cd") 4) 4 = clip (some "ab cd") 4 :=
  (c8_clip_idempotent "ab cd" 4 (by decide)).1

/-! # Claim C9 -/

/-- C9, counterexample.  The clipped output can exceed the limit: the
space-free input "aaaaa" clipped to 3 yields "aaa…", which has 4
characters. -/
theorem c9_counterexample :
    clip (some "aaaaa") 3 = some "aaa…" ∧
    ("aaa…" : String).data.length = 4 ∧
    ¬ ("aaa…" : String).data.length ≤ 3 := by decide

/-- C9, amended.  For every nonempty input: when the normalized form
fits in n the clipper returns it unchanged; otherwise the output is at
most n + 1 characters (body at most n plus the one-character ellipsis),
and at most n exactly when the first n characters of the normalized
input contain a space to back off to.  Consequently every
abstractOriginal the parser attaches is at most 1201 characters (limit
1200 plus marker), not 1200 as claimed. -/
theorem c9_clip_bounds :
    (∀ (s : String) (n : Nat), s ≠ "" →
       ((normWS s.data).length ≤ n →
          clip (some s) n = some (String.mk (normWS s.data))) ∧
       (∀ t : String, clip (some s) n = some t →
          t.data.length ≤ n + 1 ∧
          (' ' ∈ (normWS s.data).take n → t.data.length ≤ n))) ∧
    (∀ root? : Option Xml, ∀ it ∈ (parse_ops_xml root?).1, ∀ a : String,
       it.abstractOriginal = some a → a.data.length ≤ 1201) := by
  refine ⟨fun s n hs => ⟨fun hlen => ?_, fun t ht => ?_⟩,
          fun root? => abstract_len root?⟩
  · rw [clip_some hs n]
    have := (clipChars_len_bounds (splitWS s.data)
      (splitWS_wordsOK s.data) n).2.2 hlen
    rw [show clipChars (normWS s.data) n =
          clipChars (joinSp (splitWS s.data)) n from rfl, this]
    rfl
  · rw [clip_some hs n] at ht
    injection ht with ht2
    rw [← ht2]
    have hb := clipChars_len_bounds (splitWS s.data)
      (splitWS_wordsOK s.data) n
    exact ⟨hb.1, fun hsp => hb.2.1 hsp⟩

/-- C9, witness: the amended theorem at concrete inputs — a short input
returned normalized, a clipped input within the bound thanks to a space,
and a parsed abstract within 1201. -/
theorem c9_clip_bounds_witness :
    clip (some "ab cd") 10 = some (String.mk (normWS ("ab cd" : String).data)) ∧
    ("hello…" : String).data.length ≤ 8 ∧
    ("p1 p2" : String).data.length ≤ 1201 := by
  refine ⟨(c9_clip_bounds.1 "ab cd" 10 (by decide)).1 (by decide), ?_, ?_⟩
  · exact ((c9_clip_bounds.1 "hello world" 8 (by decide)).2 "hello…"
      (by decide)).2 (by decide)
  · exact c9_clip_bounds.2 (some absRoot) (docToItem absDoc) (by decide)
      "p1 p2" (by decide)

/-! # Orchestrator control flow -/

theorem fetch_token_none {env : Env} {q : String} {page size : Int}
    (h : env.token = none) : fetch_real_patents env q page size = none := by
  simp only [fetch_real_patents, h]

theorem fetch_search_error {env : Env} {q : String} {page size : Int}
    {t : String} (ht : env.token = some t)
    (he : env.search q page size t = .error ()) :
    fetch_real_patents env q page size = none := by
  simp only [fetch_real_patents, ht, he]

theorem fetch_search_ok {env : Env} {q : String} {page size : Int}
    {t x : String} (ht : env.token = some t)
    (hok : env.search q page size t = .ok x) :
    fetch_real_patents env q page size =
      some (liveResponse env x page size) := by
  simp only [fetch_real_patents, ht, hok]

theorem search_get_fetch_none {env : Env} {q : String} {page size : Int}
    (h : fetch_real_patents env q page size = none) :
    search_get env q page size = paginate_demo env page size := by
  simp only [search_get, h]

theorem search_get_fetch_some {env : Env} {q : String} {page size : Int}
    {r : SearchResponse} (h : fetch_real_patents env q page size = some r) :
    search_get env q page size = r := by
  simp only [search_get, h]

theorem demo_pool_length (env : Env) : (demo_pool env).length = 3 := by
  simp only [demo_pool, List.length_map]
  rfl

/-- Both paths echo the requested page and size into the response. -/
theorem search_get_echo (env : Env) (q : String) (page size : Int) :
    (search_get env q page size).page = page ∧
    (search_get env q page size).size = size := by
  cases hf : fetch_real_patents env q page size with
  | none => rw [search_get_fetch_none hf]; exact ⟨rfl, rfl⟩
  | some r =>
    rw [search_get_fetch_some hf]
    unfold fetch_real_patents at hf
    split at hf
    · exact absurd hf (by simp)
    · split at hf
      · exact absurd hf (by simp)
      · cases hf; exact ⟨rfl, rfl⟩

/-- The POST handler when int() succeeds on page and size. -/
theorem search_post_eq {env : Env} {payload : List (String × PyVal)}
    {p s : Int} (hp : pyInt (pyGet payload "page" (.int 1)) = some p)
    (hs : pyInt (pyGet payload "size" (.int 25)) = some s) :
    search_post env payload =
      some (search_get env (pyValStr (pyGet payload "query" (.str "")))
              p s) := by
  simp only [search_post, hp, hs]

/-! # Titles are never empty -/

theorem pyFalsyOpt_false_getD {o : Option String}
    (h : pyFalsyOpt o = false) : o.getD "" ≠ "" := by
  cases o with
  | none => simp [pyFalsyOpt] at h
  | some s =>
    simp only [pyFalsyOpt, beq_eq_false_iff_ne, ne_eq] at h
    simpa using h

theorem docToItem_title (doc : Xml) : (docToItem doc).titleOriginal ≠ "" := by
  have hEq : (docToItem doc).titleOriginal =
      (if pyFalsyOpt (titleLoop none (findallD doc "ex:invention-title"))
       then "—"
       else (titleLoop none (findallD doc "ex:invention-title")).getD "") :=
    rfl
  rw [hEq]
  split
  · decide
  · rename_i h
    exact pyFalsyOpt_false_getD (by simpa using h)

theorem parse_title_inv (root? : Option Xml) :
    ∀ it ∈ (parse_ops_xml root?).1, it.titleOriginal ≠ "" := by
  intro it hit
  cases root? with
  | none => exact absurd hit (by simp [parse_ops_xml])
  | some root =>
    obtain ⟨doc, _, rfl⟩ := List.mem_map.mp (mem_sortDesc.mp hit)
    exact docToItem_title doc

theorem demo_pool_title (env : Env) :
    ∀ it ∈ demo_pool env, it.titleOriginal ≠ "" := by
  intro it hit
  obtain ⟨x, hx, rfl⟩ := List.mem_map.mp hit
  have hseed : ∀ y ∈ demoSeed, y.titleOriginal ≠ "" := by decide
  exact hseed x (mem_sortDesc.mp hx)

/-! # The pipeline invariant on publication dates -/

theorem tryYmd_dateOK {cs : List Char} {dt : PyDate}
    (h : tryYmd cs = some dt) : dateOK dt.y dt.m dt.d = true := by
  unfold tryYmd at h
  cases hr : read4 cs with
  | none => rw [hr] at h; exact absurd h (by simp)
  | some p =>
    rw [hr, Option.some_bind] at h
    cases hm : matchMDlast p.2 with
    | none => rw [hm] at h; exact absurd h (by simp)
    | some q =>
      rw [hm, Option.some_bind] at h
      split at h
      · cases h
        rename_i hc
        exact (Bool.and_eq_true .. ▸ hc).2
      · exact absurd h (by simp)

theorem tryYmdDash_dateOK {cs : List Char} {dt : PyDate}
    (h : tryYmdDash cs = some dt) : dateOK dt.y dt.m dt.d = true := by
  unfold tryYmdDash at h
  cases hr : read4 cs with
  | none => rw [hr] at h; exact absurd h (by simp)
  | some p =>
    rw [hr, Option.some_bind] at h
    split at h
    · split at h
      · cases hm : matchMDdash _ with
        | none => rw [hm] at h; exact absurd h (by simp)
        | some q =>
          rw [hm, Option.some_bind] at h
          split at h
          · cases h
            rename_i hcond
            exact (Bool.and_eq_true .. ▸ hcond).2
          · exact absurd h (by simp)
      · exact absurd h (by simp)
    · exact absurd h (by simp)

theorem tryYm_dateOK {cs : List Char} {dt : PyDate}
    (h : tryYm cs = some dt) : dateOK dt.y dt.m dt.d = true := by
  unfold tryYm at h
  cases hr : read4 cs with
  | none => rw [hr] at h; exact absurd h (by simp)
  | some p =>
    rw [hr, Option.some_bind] at h
    cases hm : (mCands p.2).head? with
    | none => rw [hm] at h; exact absurd h (by simp)
    | some q =>
      rw [hm, Option.some_bind] at h
      split at h
      · cases h
        rename_i hcond
        exact (Bool.and_eq_true .. ▸ hcond).2
      · exact absurd h (by simp)

theorem tryY_dateOK {cs : List Char} {dt : PyDate}
    (h : tryY cs = some dt) : dateOK dt.y dt.m dt.d = true := by
  unfold tryY at h
  cases hr : read4 cs with
  | none => rw [hr] at h; exact absurd h (by simp)
  | some p =>
    rw [hr, Option.some_bind] at h
    split at h
    · cases h
      rename_i hcond
      exact (Bool.and_eq_true .. ▸ hcond).2
    · exact absurd h (by simp)

theorem strptimeChain_dateOK {cs : List Char} {dt : PyDate}
    (h : strptimeChain cs = some dt) : dateOK dt.y dt.m dt.d = true := by
  unfold strptimeChain at h
  cases h1 : tryYmd cs with
  | some dt1 => rw [h1] at h; cases h; exact tryYmd_dateOK h1
  | none =>
    rw [h1] at h
    cases h2 : tryYmdDash cs with
    | some dt2 => rw [h2] at h; cases h; exact tryYmdDash_dateOK h2
    | none =>
      rw [h2] at h
      cases h3 : tryYm cs with
      | some dt3 => rw [h3] at h; cases h; exact tryYm_dateOK h3
      | none => rw [h3] at h; exact tryY_dateOK h

/-- Whatever _parse_date_safe returns is a valid calendar date (either a
validated strptime result or the 1900-01-01 sentinel). -/
theorem parse_dateOK (raw : Option String) :
    dateOK (parse_date_safe raw).y (parse_date_safe raw).m
      (parse_date_safe raw).d = true := by
  cases raw with
  | none => decide
  | some s =>
    have hps : parse_date_safe (some s) =
        (if s = "" then (⟨1900, 1, 1⟩ : PyDate)
         else (strptimeChain (pyStrip s.data)).getD ⟨1900, 1, 1⟩) := rfl
    rw [hps]
    by_cases hs : s = ""
    · rw [if_pos hs]; decide
    · rw [if_neg hs]
      cases hc : strptimeChain (pyStrip s.data) with
      | none => decide
      | some dt => exact strptimeChain_dateOK hc

/-- A canonical string emitted by _fmt_date_iso parses back to a date
strictly above the 1900-01-01 sentinel. -/
theorem fmt_roundtrip {raw : Option String} {s : String}
    (h : fmt_date_iso raw = some s) :
    (⟨1900, 1, 1⟩ : PyDate).key < (parse_date_safe (some s)).key := by
  simp only [fmt_date_iso] at h
  split at h
  · rename_i hy
    cases h
    have hOK := parse_dateOK raw
    have hb := dateOK_bounds hOK
    rw [parse_iso hOK]
    unfold PyDate.key
    dsimp only
    omega
  · exact absurd h (by simp)

/-- Every record _parse_ops_xml builds has either no publicationDate or
one whose sort key is strictly above the sentinel. -/
theorem pubDate_inv (doc : Xml) :
    (docToItem doc).publicationDate = none ∨
    (⟨1900, 1, 1⟩ : PyDate).key < dkey (docToItem doc) := by
  have hpd : (docToItem doc).publicationDate =
      (match findD doc "ex:document-id" with
       | some di =>
         match findD di "ex:date" with
         | some dtEl =>
           match dtEl.text with
           | some tx => if tx ≠ "" then fmt_date_iso (some tx) else none
           | none => none
         | none => none
       | none => none) := rfl
  unfold dkey
  rw [hpd]
  split <;> try exact Or.inl rfl
  split <;> try exact Or.inl rfl
  split <;> try exact Or.inl rfl
  split <;> try exact Or.inl rfl
  rename_i tx heq htx
  cases hf : fmt_date_iso (some tx) with
  | none => exact Or.inl rfl
  | some s => exact Or.inr (fmt_roundtrip hf)

theorem parse_items_inv (root? : Option Xml) :
    ∀ it ∈ (parse_ops_xml root?).1,
      it.publicationDate = none ∨
      (⟨1900, 1, 1⟩ : PyDate).key < dkey it := by
  intro it hit
  cases root? with
  | none => exact absurd hit (by simp [parse_ops_xml])
  | some root =>
    have hm : it ∈ (findallD root "ex:exchange-document").map docToItem :=
      mem_sortDesc.mp hit
    obtain ⟨doc, _, rfl⟩ := List.mem_map.mp hm
    exact pubDate_inv doc

/-! # Claim C3 -/

/-- C3, counterexample.  The claim "every supported-format input yields a
canonical YYYY-MM-DD consistent with its year/month/day; every other
input yields an absent canonical and a minimum comparable" is false on
the code: (1) the supported YYYY-MM-DD input "1900-06-15" yields an
absent canonical string because the year guard is strict; (2) the
supported YYYYMM input "202511" (November 2025) is normalized to
"2025-01-01", inconsistent with its month; (3) the failure sentinel
1900-01-01 is not the minimum comparable: the parseable input "1899"
compares strictly below it. -/
theorem c3_counterexample :
    fmt_date_iso (some "1900-06-15") = none ∧
    fmt_date_iso (some "202511") = some "2025-01-01" ∧
    (parse_date_safe (some "1899")).key <
      (parse_date_safe (some "not-a-date")).key := by decide

/-- C3, amended.  For supported-format inputs (zero-padded, valid
calendar dates, year ≤ 9999) whose year exceeds 1900 the normalizer
returns the canonical YYYY-MM-DD consistent with the input — except that
YYYYMM inputs are only normalized faithfully for months 1..10, while
months 11 and 12 are mis-parsed by the first format candidate as
January 1 resp. January 2 of that year.  Every input rejected by all
four format candidates gets the fixed sentinel 1900-01-01 (which is not
the minimum possible comparable) and an absent canonical string, and so
do None and "".  The normalizer is a total function (never raises). -/
theorem c3_date_normalizer :
    (∀ y m d : Nat, dateOK y m d = true → 1900 < y →
       fmt_date_iso (some (String.mk (pad4 y ++ (pad2 m ++ pad2 d)))) =
         some (String.mk (isoChars y m d)) ∧
       fmt_date_iso (some (String.mk (isoChars y m d))) =
         some (String.mk (isoChars y m d))) ∧
    (∀ y m : Nat, dateOK y m 1 = true → 1900 < y → m ≤ 10 →
       fmt_date_iso (some (String.mk (pad4 y ++ pad2 m))) =
         some (String.mk (isoChars y m 1))) ∧
    (∀ y : Nat, 1900 < y → y ≤ 9999 →
       fmt_date_iso (some (String.mk (pad4 y))) =
         some (String.mk (isoChars y 1 1)) ∧
       fmt_date_iso (some (String.mk (pad4 y ++ pad2 11))) =
         some (String.mk (isoChars y 1 1)) ∧
       fmt_date_iso (some (String.mk (pad4 y ++ pad2 12))) =
         some (String.mk (isoChars y 1 2))) ∧
    (∀ s : String, strptimeChain (pyStrip s.data) = none →
       parse_date_safe (some s) = ⟨1900, 1, 1⟩ ∧
       fmt_date_iso (some s) = none) ∧
    (parse_date_safe none = ⟨1900, 1, 1⟩ ∧ fmt_date_iso none = none) := by
  refine ⟨fun y m d h hy => ⟨?_, ?_⟩, fun y m h hy hm => ?_,
          fun y hy h2 => ⟨?_, ?_, ?_⟩, fun s h => ⟨?_, ?_⟩, by decide⟩
  · exact fmt_of_parse (parse_digits8 h) hy
  · exact fmt_of_parse (parse_iso h) hy
  · exact fmt_of_parse (parse_digits6_low h hm) hy
  · exact fmt_of_parse (parse_digits4 (by omega) h2) hy
  · exact fmt_of_parse ((parse_digits6_high (by omega) h2).1) hy
  · exact fmt_of_parse ((parse_digits6_high (by omega) h2).2) hy
  · exact parse_of_chain_none h
  · exact fmt_of_parse_low (by rw [parse_of_chain_none h])

/-- C5.  Sorting any finite list of records by the date normalizer's
comparable value, descending — the sort performed by _parse_ops_xml and
_demo_pool — is a permutation that is pairwise newest-first in the key,
and provided every present publicationDate parses strictly above the
1900-01-01 sentinel (which parse_items_inv proves for every record the
parser itself produces, since canonical dates always carry a year above
1900), every malformed-date record (absent publicationDate, sentinel
key) comes after every valid-date record. -/
theorem c5_sort_mixed (l : List PatentItem)
    (hvalid : ∀ it ∈ l, it.publicationDate = none ∨
       (⟨1900, 1, 1⟩ : PyDate).key < dkey it) :
    List.Perm (sortDesc dkey l) l ∧
    (sortDesc dkey l).Pairwise (fun a b => dkey b ≤ dkey a) ∧
    (sortDesc dkey l).Pairwise
      (fun a b => a.publicationDate = none → b.publicationDate = none) := by
  refine ⟨perm_sortDesc dkey l, sorted_sortDesc dkey l, ?_⟩
  refine (sorted_sortDesc dkey l).imp_of_mem ?_
  intro a b ha hb hle hnone
  have hb' : b ∈ l := mem_sortDesc.mp hb
  cases hd : b.publicationDate with
  | none => rfl
  | some d =>
    exfalso
    have hda : dkey a = (⟨1900, 1, 1⟩ : PyDate).key := by
      unfold dkey
      rw [hnone]
      rfl
    rcases hvalid b hb' with hbn | hbk
    · rw [hd] at hbn
      exact Option.noConfusion hbn
    · omega

/-- C5, witness: three concrete records, two valid dates (2025 and 2020)
and one malformed, sorted as the claim demands. -/
theorem c5_sort_mixed_witness :
    List.Perm (sortDesc dkey
      [{ publicationNumber := "A", publicationDate := some "2020-03-04",
         titleOriginal := "a", linkEspacenet := "la" },
       { publicationNumber := "B", publicationDate := none,
         titleOriginal := "b", linkEspacenet := "lb" },
       { publicationNumber := "C", publicationDate := some "2025-08-01",
         titleOriginal := "c", linkEspacenet := "lc" }])
      [{ publicationNumber := "A", publicationDate := some "2020-03-04",
         titleOriginal := "a", linkEspacenet := "la" },
       { publicationNumber := "B", publicationDate := none,
         titleOriginal := "b", linkEspacenet := "lb" },
       { publicationNumber := "C", publicationDate := some "2025-08-01",
         titleOriginal := "c", linkEspacenet := "lc" }] ∧
    (sortDesc dkey
      [{ publicationNumber := "A", publicationDate := some "2020-03-04",
         titleOriginal := "a", linkEspacenet := "la" },
       { publicationNumber := "B", publicationDate := none,
         titleOriginal := "b", linkEspacenet := "lb" },
       { publicationNumber := "C", publicationDate := some "2025-08-01",
         titleOriginal := "c", linkEspacenet := "lc" }]).Pairwise
      (fun a b => dkey b ≤ dkey a) ∧
    (sortDesc dkey
      [{ publicationNumber := "A", publicationDate := some "2020-03-04",
         titleOriginal := "a", linkEspacenet := "la" },
       { publicationNumber := "B", publicationDate := none,
         titleOriginal := "b", linkEspacenet := "lb" },
       { publicationNumber := "C", publicationDate := some "2025-08-01",
         titleOriginal := "c", linkEspacenet := "lc" }]).Pairwise
      (fun a b => a.publicationDate = none → b.publicationDate = none) :=
  c5_sort_mixed _ (by decide)

/-- C3, witness: the amended theorem applied at concrete inputs
(August 1 2025 in each supported format, and an unparseable string). -/
theorem c3_date_normalizer_witness :
    fmt_date_iso (some "20250801") = some "2025-08-01" ∧
    fmt_date_iso (some "2025-08-01") = some "2025-08-01" ∧
    fmt_date_iso (some "202508") = some "2025-08-01" ∧
    fmt_date_iso (some "2025") = some "2025-01-01" ∧
    parse_date_safe (some "not-a-date") = ⟨1900, 1, 1⟩ := by
  have h8 := (c3_date_normalizer.1 2025 8 1 (by decide) (by decide)).1
  have hIso := (c3_date_normalizer.1 2025 8 1 (by decide) (by decide)).2
  have h6 := c3_date_normalizer.2.1 2025 8 (by decide) (by decide) (by decide)
  have h4 := (c3_date_normalizer.2.2.1 2025 (by decide) (by decide)).1
  have hBad := (c3_date_normalizer.2.2.2.1 "not-a-date" (by decide)).1
  refine ⟨?_, ?_, ?_, ?_, hBad⟩
  · rw [show ("20250801" : String) =
          String.mk (pad4 2025 ++ (pad2 8 ++ pad2 1)) from by decide, h8]
    decide
  · rw [show ("2025-08-01" : String) = String.mk (isoChars 2025 8 1) from by
          decide, hIso]
  · rw [show ("202508" : String) = String.mk (pad4 2025 ++ pad2 8) from by
          decide, h6]
    decide
  · rw [show ("2025" : String) = String.mk (pad4 2025) from by decide, h4]
    decide

/-! # Claim C1 -/

/-- C1, counterexample.  Token obtained, HTTP search succeeded, but the
body parses to zero total: the orchestrator does NOT fall back to the
demo pool — it returns the live response with total 0 and no items
(the demo response would have total 3). -/
theorem c1_zero_total_counterexample :
    (search_get liveZeroEnv "solar" 1 25).total = 0 ∧
    (search_get liveZeroEnv "solar" 1 25).items = [] ∧
    (paginate_demo liveZeroEnv 1 25).total = 3 ∧
    search_get liveZeroEnv "solar" 1 25 ≠ paginate_demo liveZeroEnv 1 25 := by
  decide

/-- C1, amended.  The orchestrator falls back to the demo pool exactly
when the token is absent or the search call raises; whenever the token
is obtained and the HTTP call succeeds, the live response is returned —
even when parsing yields a zero total — and its items come exclusively
from the live parse (so no response ever mixes live and demo records,
but a zero-total live parse is served as a live result, not replaced by
the demo pool). -/
theorem c1_fallback_policy (env : Env) (q : String) (page size : Int) :
    (env.token = none →
       search_get env q page size = paginate_demo env page size) ∧
    (∀ t, env.token = some t →
      (env.search q page size t = .error () →
         search_get env q page size = paginate_demo env page size) ∧
      (∀ x, env.search q page size t = .ok x →
         fetch_real_patents env q page size =
           some (liveResponse env x page size) ∧
         search_get env q page size = liveResponse env x page size ∧
         (liveResponse env x page size).total =
           (parse_ops_xml (env.fromstring x)).2 ∧
         (liveResponse env x page size).items =
           pySliceTo (liveItems env x) size)) := by
  refine ⟨fun ht => search_get_fetch_none (fetch_token_none ht),
          fun t ht =>
            ⟨fun he => search_get_fetch_none (fetch_search_error ht he),
             fun x hok => ?_⟩⟩
  have hf := fetch_search_ok ht hok
  exact ⟨hf, search_get_fetch_some hf, rfl, rfl⟩

/-- C1, witness: the amended theorem applied to the concrete zero-total
live environment. -/
theorem c1_fallback_policy_witness :
    fetch_real_patents liveZeroEnv "solar" 1 25 =
      some (liveResponse liveZeroEnv "<r/>" 1 25) ∧
    search_get liveZeroEnv "solar" 1 25 = liveResponse liveZeroEnv "<r/>" 1 25 ∧
    (liveResponse liveZeroEnv "<r/>" 1 25).total =
      (parse_ops_xml (liveZeroEnv.fromstring "<r/>")).2 ∧
    (liveResponse liveZeroEnv "<r/>" 1 25).items =
      pySliceTo (liveItems liveZeroEnv "<r/>") 25 :=
  ((c1_fallback_policy liveZeroEnv "solar" 1 25).2 "tok" rfl).2 "<r/>" rfl

/-! # Claim C2 -/

/-- C2, counterexample.  No server-side clamping of size exists: a
fallback request with size 0 produces a response whose size is 0
(outside [1, 25]), and size 100 is echoed as 100. -/
theorem c2_counterexample :
    (search_get demoEnv "solar" 1 0).size = 0 ∧
    ¬ (1 ≤ (search_get demoEnv "solar" 1 0).size ∧
       (search_get demoEnv "solar" 1 0).size ≤ 25) ∧
    (search_get demoEnv "solar" 1 100).size = 100 := by decide

/-- C2, amended.  The handlers perform no clamping at all: page and size
are echoed into the response exactly as requested on both the live and
the fallback path (GET), and on POST any int()-convertible page and size
are passed through unvalidated, with page defaulting to 1 and size to 25
when the keys are absent. -/
theorem c2_no_clamp :
    (∀ env : Env, ∀ q : String, ∀ page size : Int,
       (search_get env q page size).page = page ∧
       (search_get env q page size).size = size) ∧
    (∀ env : Env, ∀ payload : List (String × PyVal), ∀ p s : Int,
       pyInt (pyGet payload "page" (.int 1)) = some p →
       pyInt (pyGet payload "size" (.int 25)) = some s →
       ∃ r, search_post env payload = some r ∧ r.page = p ∧ r.size = s) := by
  refine ⟨fun env q page size => search_get_echo env q page size,
          fun env payload p s hp hs => ?_⟩
  refine ⟨search_get env (pyValStr (pyGet payload "query" (.str ""))) p s,
          search_post_eq hp hs, ?_, ?_⟩
  · exact (search_get_echo env _ p s).1
  · exact (search_get_echo env _ p s).2

/-- C2, witness: an absent-keys POST yields page 1 and size 25, and an
explicit size 0 GET echoes 0. -/
theorem c2_no_clamp_witness :
    (∃ r, search_post demoEnv [] = some r ∧ r.page = 1 ∧ r.size = 25) ∧
    (search_get demoEnv "solar" 7 0).page = 7 ∧
    (search_get demoEnv "solar" 7 0).size = 0 :=
  ⟨c2_no_clamp.2 demoEnv [] 1 25 rfl rfl,
   c2_no_clamp.1 demoEnv "solar" 7 0⟩

/-! # Claim C4 -/

/-- C4, counterexample.  An exchange-document with no country,
doc-number and kind attributes yields a record whose publicationNumber
is the empty string, and that record is returned in a SearchResult, so
publicationNumber is not always non-empty. -/
theorem c4_counterexample :
    (parse_ops_xml (some emptyDocRoot)).1.map
        (fun it => it.publicationNumber) = [""] ∧
    (search_get liveEmptyDocEnv "q" 1 25).items.map
        (fun it => it.publicationNumber) = [""] := by decide

/-- C4, amended.  titleOriginal is always present and non-empty — the
placeholder "—" is substituted when the upstream title is missing or
empty — both for every parsed record and for every record in any
returned SearchResult; publicationNumber, however, is only the
concatenation of the trimmed country, doc-number and kind attributes
and is empty when all three are missing or blank. -/
theorem c4_title_always_nonempty :
    (∀ root? : Option Xml, ∀ it ∈ (parse_ops_xml root?).1,
       it.titleOriginal ≠ "") ∧
    (∀ env : Env, ∀ q : String, ∀ page size : Int,
       ∀ it ∈ (search_get env q page size).items, it.titleOriginal ≠ "") := by
  refine ⟨fun root? => parse_title_inv root?, ?_⟩
  intro env q page size it hit
  cases hf : fetch_real_patents env q page size with
  | none =>
    rw [search_get_fetch_none hf] at hit
    have hitems : (paginate_demo env page size).items =
        pySlice (demo_pool env) ((page - 1) * size) ((page - 1) * size + size) :=
      rfl
    rw [hitems] at hit
    exact demo_pool_title env it (mem_pySlice hit)
  | some r =>
    rw [search_get_fetch_some hf] at hit
    unfold fetch_real_patents at hf
    split at hf
    · exact absurd hf (by simp)
    · split at hf
      · exact absurd hf (by simp)
      · cases hf
        rename_i t ht x hok
        have hitems : (liveResponse env x page size).items =
            pySliceTo (liveItems env x) size := rfl
        rw [hitems] at hit
        have hmem : it ∈ liveItems env x := mem_pySliceTo hit
        obtain ⟨it0, hit0, rfl⟩ := List.mem_map.mp hmem
        exact parse_title_inv _ it0 hit0

/-- C4, witness: the amended theorem applied to the record parsed from
an attribute-less document node. -/
theorem c4_title_always_nonempty_witness :
    (docToItem (Xml.mk "ex:exchange-document" [] none [])).titleOriginal ≠ "" :=
  c4_title_always_nonempty.1 (some emptyDocRoot) _ (by decide)

/-! # Claim C6 -/

/-- C6, counterexample.  The demo pool is not synthesized by cyclic
repetition with per-index mutation of identifiers, title suffixes and
dates: it is exactly the three hard-coded seed records, identifiers,
titles and dates verbatim, whatever the environment. -/
theorem c6_counterexample :
    (demo_pool demoEnv).map (fun it => it.publicationNumber) =
      ["CN120398169A", "WO2025167351A1", "US12421136B1"] ∧
    (demo_pool demoEnv).map (fun it => it.titleOriginal) =
      ["Solar seawater desalination device for evaporation driven by immersed heat pipe",
       "Solar desalination and purification apparatus",
       "Solar desalination system"] ∧
    (demo_pool demoEnv).length = 3 := by decide

/-- C6, amended.  The demo pool is a fixed literal list of three seed
records, sorted newest-first and then translated; it is deterministic:
any two invocations — under any two environments — agree on every
identifier, publication date and original title (only the translated
fields depend on the translator), and the pool size is always 3. -/
theorem c6_demo_pool_deterministic (env1 env2 : Env) :
    (demo_pool env1).map
        (fun it => (it.publicationNumber, it.publicationDate,
                    it.titleOriginal)) =
      (demo_pool env2).map
        (fun it => (it.publicationNumber, it.publicationDate,
                    it.titleOriginal)) ∧
    (demo_pool env1).length = 3 :=
  ⟨rfl, demo_pool_length env1⟩

/-! # Claim C7 -/

/-- C7, counterexample.  A POST body whose page value is the string
"abc" makes int() raise: the handler propagates the exception (modelled
as none), so the service answers this request with a 500, not a
best-effort SearchResult. -/
theorem c7_counterexample :
    search_post demoEnv [("page", PyVal.str "abc")] = none := by decide

/-- C7, amended.  Whenever int() succeeds on the page and size payload
values (in particular for absent keys, which default to 1 and 25), the
POST handler always returns a well-formed SearchResult — the total
GET flow value — absorbing all upstream, parse and translation
failures; but payload values on which int() raises propagate as an
unhandled exception (non-2xx). -/
theorem c7_always_answers (env : Env) (payload : List (String × PyVal))
    (p s : Int) (hp : pyInt (pyGet payload "page" (.int 1)) = some p)
    (hs : pyInt (pyGet payload "size" (.int 25)) = some s) :
    search_post env payload =
      some (search_get env (pyValStr (pyGet payload "query" (.str "")))
              p s) :=
  search_post_eq hp hs

/-- C7, witness: the amended theorem at the empty payload. -/
theorem c7_always_answers_witness :
    search_post demoEnv [] = some (search_get demoEnv "" 1 25) :=
  c7_always_answers demoEnv [] 1 25 rfl rfl

/-! # Claim C10 -/

/-- C10.  The handlers echo page and size without validation, and a
fallback request with size 0 (demo pool of 3 records) returns no items
together with nextPage = page + 1, for every page ≥ 1 — so a client
following nextPage with size 0 never reaches a page without a nextPage. -/
theorem c10_size_zero_loop (env : Env) (q : String) (page : Int)
    (htok : env.token = none) (_hpage : 1 ≤ page) :
    (search_get env q page 0).page = page ∧
    (search_get env q page 0).size = 0 ∧
    (search_get env q page 0).items = [] ∧
    (search_get env q page 0).nextPage = some (page + 1) := by
  rw [search_get_fetch_none (fetch_token_none htok)]
  refine ⟨rfl, rfl, ?_, ?_⟩
  · show pySlice (demo_pool env) ((page - 1) * 0) ((page - 1) * 0 + 0) = []
    simp [pySlice, pyIdx]
  · show (if (page - 1) * 0 + 0 < ((demo_pool env).length : Int)
          then some (page + 1) else none) = some (page + 1)
    rw [demo_pool_length]
    rw [if_pos (by omega)]

/-- C10, witness: page 1, size 0 against the credential-less
environment. -/
theorem c10_size_zero_loop_witness :
    (search_get demoEnv "solar" 1 0).items = [] ∧
    (search_get demoEnv "solar" 1 0).nextPage = some 2 :=
  ⟨(c10_size_zero_loop demoEnv "solar" 1 rfl (by norm_num)).2.2.1,
   (c10_size_zero_loop demoEnv "solar" 1 rfl (by norm_num)).2.2.2⟩

end EpoApi
